import Mathlib

/-! A shallow embedding of the simplified 6502 emulator.

Two C files are embedded: `src/main.c` (namespace `Main`) and the cached copy
`src/.ccls-cache/@home@runner@ehbasic-emulator-6502-ansi-c/main.c` (namespace
`Cache`), which adds `read_char` and the input trap at `0x0026`.  Everything
up to `pop` is textually identical in both files and is embedded once.

Conventions.

* C `unsigned char` / `unsigned short` values are natural numbers; every
  store into such an object goes through `u8` / `u16` (reduction modulo
  `2^8` / `2^16`).  `Machine.WF` states that every stored value is in range.
* `exit(1)` is an explicit `Result.exit` carrying the fatal condition and the
  machine state at the moment of the call.  The diagnostic line printed just
  before `exit` is represented by the `Fault` value, not by `output`.
* `output` lists the bytes handed to `putchar`; `input` lists the bytes still
  to be delivered by `getchar` (empty means end of file).
* Where C leaves the evaluation order open the usual compiler order is taken:
  the operands of `|` are evaluated left to right, and in `pc += fetch_byte()`
  the call is evaluated before `pc` is read.
-/

/-- Conversion to `unsigned char`. -/
def u8 (n : Nat) : Nat := n % 256

/-- Conversion to `unsigned short`. -/
def u16 (n : Nat) : Nat := n % 65536

/-- The register file `CPU6502`. -/
structure CPU6502 where
  a : Nat
  x : Nat
  y : Nat
  pc : Nat
  sp : Nat
  p : Nat
  deriving DecidableEq, Repr

/-- The whole program state: the registers passed by pointer, the globals
`memory`, `stack`, `stack_pointer`, and the two host character streams. -/
structure Machine where
  cpu : CPU6502
  memory : Nat → Nat
  stack : Nat → Nat
  stack_pointer : Nat
  output : List Nat
  input : List Nat

/-- The four fatal conditions (each is a diagnostic followed by `exit(1)`). -/
inductive Fault where
  | InvalidAddressingMode (mode : Nat)
  | StackOverflow
  | StackUnderflow
  | UnknownOpcode (opcode : Nat)
  deriving DecidableEq, Repr

/-- Outcome of a call: normal return with a value, or process exit. -/
inductive Result (α : Type) where
  | ok (value : α) (s : Machine)
  | exit (f : Fault) (s : Machine)

/-- Every stored value fits the C type of the object holding it. -/
structure Machine.WF (s : Machine) : Prop where
  a_lt : s.cpu.a < 256
  x_lt : s.cpu.x < 256
  y_lt : s.cpu.y < 256
  pc_lt : s.cpu.pc < 65536
  sp_lt : s.cpu.sp < 256
  p_lt : s.cpu.p < 256
  memory_lt : ∀ i, s.memory i < 256
  stack_lt : ∀ i, s.stack i < 65536
  stack_pointer_lt : s.stack_pointer < 256

/-- Pointwise array store `arr[i] = v`. -/
def store (arr : Nat → Nat) (i v : Nat) : Nat → Nat :=
  fun j => if j = i then v else arr j

/-- The state after `cpu_init`, with the globals as the C start-up leaves
them: zeroed arrays, `stack_pointer = STACK_SIZE - 1`. -/
def cpu_init (input : List Nat) : Machine :=
  { cpu := { a := 0, x := 0, y := 0, pc := 0, sp := 0xFF, p := 0 }
    memory := fun _ => 0
    stack := fun _ => 0
    stack_pointer := 256 - 1
    output := []
    input := input }

/-- Assignment to `cpu->pc`. -/
def Machine.setPc (s : Machine) (v : Nat) : Machine :=
  { s with cpu := { s.cpu with pc := u16 v } }

/-- Assignment to `cpu->a`. -/
def Machine.setA (s : Machine) (v : Nat) : Machine :=
  { s with cpu := { s.cpu with a := u8 v } }

/-- Assignment to `cpu->x`. -/
def Machine.setX (s : Machine) (v : Nat) : Machine :=
  { s with cpu := { s.cpu with x := u8 v } }

/-- Assignment to `cpu->y`. -/
def Machine.setY (s : Machine) (v : Nat) : Machine :=
  { s with cpu := { s.cpu with y := u8 v } }

/-- Assignment to `cpu->sp`. -/
def Machine.setSp (s : Machine) (v : Nat) : Machine :=
  { s with cpu := { s.cpu with sp := u8 v } }

/-- Assignment to `cpu->p`. -/
def Machine.setP (s : Machine) (v : Nat) : Machine :=
  { s with cpu := { s.cpu with p := u8 v } }

/-- `return memory[cpu->pc++];` -/
def fetch_byte (s : Machine) : Nat × Machine :=
  (s.memory s.cpu.pc, s.setPc (s.cpu.pc + 1))

/-- The addressing-mode resolver. -/
def get_address (s : Machine) (mode : Nat) : Result Nat :=
  match mode with
  | 0 =>
    let address := u16 s.cpu.pc
    .ok address (s.setPc (s.cpu.pc + 1))
  | 1 =>
    let (b, s1) := fetch_byte s
    .ok (u16 b) s1
  | 2 =>
    let (lo, s1) := fetch_byte s
    let (hi, s2) := fetch_byte s1
    .ok (u16 (lo ||| (hi <<< 8))) s2
  | 3 =>
    let (b, s1) := fetch_byte s
    .ok (u16 ((b + s1.cpu.x) &&& 0xFF)) s1
  | 4 =>
    let (lo, s1) := fetch_byte s
    let (hi, s2) := fetch_byte s1
    .ok (u16 ((lo ||| (hi <<< 8)) + s2.cpu.x)) s2
  | 5 =>
    let (b, s1) := fetch_byte s
    .ok (u16 ((b + s1.cpu.y) &&& 0xFF)) s1
  | 6 =>
    let (lo, s1) := fetch_byte s
    let (hi, s2) := fetch_byte s1
    .ok (u16 ((lo ||| (hi <<< 8)) + s2.cpu.y)) s2
  | _ => .exit (.InvalidAddressingMode mode) s

/-- `address = get_address(cpu, mode); return memory[address];` -/
def read_byte (s : Machine) (mode : Nat) : Result Nat :=
  match get_address s mode with
  | .ok address s1 => .ok (s1.memory address) s1
  | .exit f s1 => .exit f s1

/-- `address = get_address(cpu, mode); memory[address] = value;` -/
def write_byte (s : Machine) (mode : Nat) (value : Nat) : Result Unit :=
  match get_address s mode with
  | .ok address s1 => .ok () { s1 with memory := store s1.memory address (u8 value) }
  | .exit f s1 => .exit f s1

/-- Push a value onto the call stack. -/
def push (s : Machine) (value : Nat) : Result Unit :=
  if s.stack_pointer = 0 then
    .exit .StackOverflow s
  else
    .ok () { s with stack := store s.stack s.stack_pointer (u16 value)
                    stack_pointer := u8 (s.stack_pointer - 1) }

/-- Pop a value from the call stack. -/
def pop (s : Machine) : Result Nat :=
  if s.stack_pointer = 256 - 1 then
    .exit .StackUnderflow s
  else
    let sp := u8 (s.stack_pointer + 1)
    .ok (s.stack sp) { s with stack_pointer := sp }

namespace Main

/-- Decode and execute one instruction (`src/main.c`). -/
def execute_instruction (s : Machine) : Result Unit :=
  let (opcode, s1) := fetch_byte s
  match opcode with
  | 0xA9 =>
    let (v, s2) := fetch_byte s1
    .ok () (s2.setA v)
  | 0x8D => write_byte s1 2 s1.cpu.a
  | 0x69 =>
    let (v, s2) := fetch_byte s1
    .ok () (s2.setA (s2.cpu.a + v))
  | 0xAD =>
    match read_byte s1 2 with
    | .ok v s2 => .ok () (s2.setA v)
    | .exit f s2 => .exit f s2
  | 0xAE =>
    match read_byte s1 2 with
    | .ok v s2 => .ok () (s2.setY v)
    | .exit f s2 => .exit f s2
  | 0xA0 =>
    let (v, s2) := fetch_byte s1
    .ok () (s2.setY v)
  | 0xA2 =>
    let (v, s2) := fetch_byte s1
    .ok () (s2.setX v)
  | 0xA1 =>
    let (b, s2) := fetch_byte s1
    let zero_page_address := u8 b
    let address :=
      u16 (((s2.memory zero_page_address ||| (s2.memory (zero_page_address + 1) <<< 8))
            + s2.cpu.x) &&& 0xFFFF)
    .ok () (s2.setA (s2.memory address))
  | 0xA6 =>
    match read_byte s1 1 with
    | .ok v s2 => .ok () (s2.setA v)
    | .exit f s2 => .exit f s2
  | 0xE8 => .ok () (s1.setX ((s1.cpu.x + 1) &&& 0xFF))
  | 0xC8 => .ok () (s1.setY ((s1.cpu.y + 1) &&& 0xFF))
  | 0xE6 =>
    match read_byte s1 1 with
    | .ok v s2 => write_byte s2 1 ((v + 1) &&& 0xFF)
    | .exit f s2 => .exit f s2
  | 0x9E => write_byte s1 2 s1.cpu.x
  | 0x9D => write_byte s1 2 0x00
  | 0xAC =>
    match read_byte s1 2 with
    | .ok v s2 => .ok () (s2.setY v)
    | .exit f s2 => .exit f s2
  | 0xC9 =>
    let s2 := s1.setP (s1.cpu.p &&& 0xFE)
    let (v, s3) := fetch_byte s2
    if s2.cpu.a = v then .ok () (s3.setP (s3.cpu.p ||| 0x01)) else .ok () s3
  | 0xD0 =>
    if s1.cpu.p &&& 0x01 ≠ 0 then
      let (v, s2) := fetch_byte s1
      .ok () (s2.setPc (s2.cpu.pc + v))
    else .ok () (s1.setPc (s1.cpu.pc + 1))
  | 0xF0 =>
    if s1.cpu.p &&& 0x01 = 0 then
      let (v, s2) := fetch_byte s1
      .ok () (s2.setPc (s2.cpu.pc + v))
    else .ok () (s1.setPc (s1.cpu.pc + 1))
  | 0x4C =>
    let (lo, s2) := fetch_byte s1
    let (hi, s3) := fetch_byte s2
    .ok () (s3.setPc (lo ||| (hi <<< 8)))
  | 0x20 =>
    match push s1 (s1.cpu.pc + 2) with
    | .exit f s2 => .exit f s2
    | .ok () s2 =>
      let (lo, s3) := fetch_byte s2
      let (hi, s4) := fetch_byte s3
      let s5 := s4.setPc (lo ||| (hi <<< 8))
      if s5.cpu.pc = 0x0025 then
        let s6 := { s5 with output := s5.output ++ [u8 s5.cpu.a] }
        match pop s6 with
        | .ok v s7 => .ok () (s7.setPc v)
        | .exit f s7 => .exit f s7
      else .ok () s5
  | 0x60 =>
    match pop s1 with
    | .ok v s2 => .ok () (s2.setPc v)
    | .exit f s2 => .exit f s2
  | 0x9A => .ok () (s1.setSp s1.cpu.x)
  | 0xBA => .ok () (s1.setX s1.cpu.sp)
  | 0xAA => .ok () (s1.setX s1.cpu.a)
  | 0x8A => .ok () (s1.setA s1.cpu.x)
  | 0xA8 => .ok () (s1.setY s1.cpu.a)
  | 0x98 => .ok () (s1.setA s1.cpu.y)
  | 0x90 =>
    if s1.cpu.p &&& 0x02 = 0 then
      let (v, s2) := fetch_byte s1
      .ok () (s2.setPc (s2.cpu.pc + v))
    else .ok () (s1.setPc (s1.cpu.pc + 1))
  | 0xB0 =>
    if s1.cpu.p &&& 0x02 ≠ 0 then
      let (v, s2) := fetch_byte s1
      .ok () (s2.setPc (s2.cpu.pc + v))
    else .ok () (s1.setPc (s1.cpu.pc + 1))
  | _ => .exit (.UnknownOpcode opcode) s1

end Main

namespace Cache

/-- `return getchar();` converted to `unsigned char`; at end of file `getchar`
yields `EOF = -1`, which converts to 255. -/
def read_char (s : Machine) : Nat × Machine :=
  match s.input with
  | [] => (255, s)
  | k :: rest => (u8 k, { s with input := rest })

/-- Decode and execute one instruction (the cached copy of `main.c`); it
differs from `Main.execute_instruction` in the second trap test of case
`0x20` only. -/
def execute_instruction (s : Machine) : Result Unit :=
  let (opcode, s1) := fetch_byte s
  match opcode with
  | 0xA9 =>
    let (v, s2) := fetch_byte s1
    .ok () (s2.setA v)
  | 0x8D => write_byte s1 2 s1.cpu.a
  | 0x69 =>
    let (v, s2) := fetch_byte s1
    .ok () (s2.setA (s2.cpu.a + v))
  | 0xAD =>
    match read_byte s1 2 with
    | .ok v s2 => .ok () (s2.setA v)
    | .exit f s2 => .exit f s2
  | 0xAE =>
    match read_byte s1 2 with
    | .ok v s2 => .ok () (s2.setY v)
    | .exit f s2 => .exit f s2
  | 0xA0 =>
    let (v, s2) := fetch_byte s1
    .ok () (s2.setY v)
  | 0xA2 =>
    let (v, s2) := fetch_byte s1
    .ok () (s2.setX v)
  | 0xA1 =>
    let (b, s2) := fetch_byte s1
    let zero_page_address := u8 b
    let address :=
      u16 (((s2.memory zero_page_address ||| (s2.memory (zero_page_address + 1) <<< 8))
            + s2.cpu.x) &&& 0xFFFF)
    .ok () (s2.setA (s2.memory address))
  | 0xA6 =>
    match read_byte s1 1 with
    | .ok v s2 => .ok () (s2.setA v)
    | .exit f s2 => .exit f s2
  | 0xE8 => .ok () (s1.setX ((s1.cpu.x + 1) &&& 0xFF))
  | 0xC8 => .ok () (s1.setY ((s1.cpu.y + 1) &&& 0xFF))
  | 0xE6 =>
    match read_byte s1 1 with
    | .ok v s2 => write_byte s2 1 ((v + 1) &&& 0xFF)
    | .exit f s2 => .exit f s2
  | 0x9E => write_byte s1 2 s1.cpu.x
  | 0x9D => write_byte s1 2 0x00
  | 0xAC =>
    match read_byte s1 2 with
    | .ok v s2 => .ok () (s2.setY v)
    | .exit f s2 => .exit f s2
  | 0xC9 =>
    let s2 := s1.setP (s1.cpu.p &&& 0xFE)
    let (v, s3) := fetch_byte s2
    if s2.cpu.a = v then .ok () (s3.setP (s3.cpu.p ||| 0x01)) else .ok () s3
  | 0xD0 =>
    if s1.cpu.p &&& 0x01 ≠ 0 then
      let (v, s2) := fetch_byte s1
      .ok () (s2.setPc (s2.cpu.pc + v))
    else .ok () (s1.setPc (s1.cpu.pc + 1))
  | 0xF0 =>
    if s1.cpu.p &&& 0x01 = 0 then
      let (v, s2) := fetch_byte s1
      .ok () (s2.setPc (s2.cpu.pc + v))
    else .ok () (s1.setPc (s1.cpu.pc + 1))
  | 0x4C =>
    let (lo, s2) := fetch_byte s1
    let (hi, s3) := fetch_byte s2
    .ok () (s3.setPc (lo ||| (hi <<< 8)))
  | 0x20 =>
    match push s1 (s1.cpu.pc + 2) with
    | .exit f s2 => .exit f s2
    | .ok () s2 =>
      let (lo, s3) := fetch_byte s2
      let (hi, s4) := fetch_byte s3
      let s5 := s4.setPc (lo ||| (hi <<< 8))
      let afterPutchar : Result Unit :=
        if s5.cpu.pc = 0x0025 then
          let s6 := { s5 with output := s5.output ++ [u8 s5.cpu.a] }
          match pop s6 with
          | .ok v s7 => .ok () (s7.setPc v)
          | .exit f s7 => .exit f s7
        else .ok () s5
      match afterPutchar with
      | .exit f s8 => .exit f s8
      | .ok () s8 =>
        if s8.cpu.pc = 0x0026 then
          let (k, s9) := read_char s8
          match pop (s9.setA k) with
          | .ok v s10 => .ok () (s10.setPc v)
          | .exit f s10 => .exit f s10
        else .ok () s8
  | 0x60 =>
    match pop s1 with
    | .ok v s2 => .ok () (s2.setPc v)
    | .exit f s2 => .exit f s2
  | 0x9A => .ok () (s1.setSp s1.cpu.x)
  | 0xBA => .ok () (s1.setX s1.cpu.sp)
  | 0xAA => .ok () (s1.setX s1.cpu.a)
  | 0x8A => .ok () (s1.setA s1.cpu.x)
  | 0xA8 => .ok () (s1.setY s1.cpu.a)
  | 0x98 => .ok () (s1.setA s1.cpu.y)
  | 0x90 =>
    if s1.cpu.p &&& 0x02 = 0 then
      let (v, s2) := fetch_byte s1
      .ok () (s2.setPc (s2.cpu.pc + v))
    else .ok () (s1.setPc (s1.cpu.pc + 1))
  | 0xB0 =>
    if s1.cpu.p &&& 0x02 ≠ 0 then
      let (v, s2) := fetch_byte s1
      .ok () (s2.setPc (s2.cpu.pc + v))
    else .ok () (s1.setPc (s1.cpu.pc + 1))
  | _ => .exit (.UnknownOpcode opcode) s1

end Cache

/-- A memory image holding the listed bytes from address `base` on and zero
elsewhere. -/
def memOf (base : Nat) (bytes : List Nat) : Nat → Nat :=
  fun i => if base ≤ i ∧ i < base + bytes.length then bytes.getD (i - base) 0 else 0

/-- The reset state with the program counter at `pc` and `bytes` loaded at
`base`. -/
def boot (pc base : Nat) (bytes : List Nat) (input : List Nat) : Machine :=
  { cpu_init input with cpu := { (cpu_init input).cpu with pc := pc }, memory := memOf base bytes }

/-- The machine state a call ends in. -/
def Result.state {α : Type} : Result α → Machine
  | .ok _ s => s
  | .exit _ s => s

/-- The fatal condition a call ends with, if any. -/
def Result.fault {α : Type} : Result α → Option Fault
  | .ok _ _ => none
  | .exit f _ => some f

/-- The value a call returns, if it returns. -/
def Result.value {α : Type} : Result α → Option α
  | .ok v _ => some v
  | .exit _ _ => none

/-- All of the state except the program counter is the same in `s` and `t`. -/
def Machine.sameButPc (s t : Machine) : Prop :=
  t.cpu.a = s.cpu.a ∧ t.cpu.x = s.cpu.x ∧ t.cpu.y = s.cpu.y ∧ t.cpu.sp = s.cpu.sp ∧
  t.cpu.p = s.cpu.p ∧ t.memory = s.memory ∧ t.stack = s.stack ∧
  t.stack_pointer = s.stack_pointer ∧ t.output = s.output ∧ t.input = s.input

/-- Consecutive `push` calls, one per listed value, stopping at the first
fatal condition. -/
def pushAll (s : Machine) : List Nat → Result Unit
  | [] => .ok () s
  | v :: vs =>
    match push s v with
    | .ok () s1 => pushAll s1 vs
    | .exit f s1 => .exit f s1

/-- Consecutive `pop` calls, `n` of them, collecting the returned values in
the order they are returned and stopping at the first fatal condition. -/
def popN (s : Machine) : Nat → Result (List Nat)
  | 0 => .ok [] s
  | n + 1 =>
    match pop s with
    | .ok v s1 =>
      match popN s1 n with
      | .ok vs s2 => .ok (v :: vs) s2
      | .exit f s2 => .exit f s2
    | .exit f s1 => .exit f s1

/-- The case labels of the `switch` in `execute_instruction`. -/
def supportedOpcodes : List Nat :=
  [0xA9, 0x8D, 0x69, 0xAD, 0xAE, 0xA0, 0xA2, 0xA1, 0xA6, 0xE8, 0xC8, 0xE6, 0x9E, 0x9D,
   0xAC, 0xC9, 0xD0, 0xF0, 0x4C, 0x20, 0x60, 0x9A, 0xBA, 0xAA, 0x8A, 0xA8, 0x98, 0x90, 0xB0]

/-- The little-endian 16-bit operand of the instruction at the program
counter, as the two `fetch_byte` calls after the opcode fetch assemble it. -/
def operand16 (s : Machine) : Nat :=
  u16 (s.memory (u16 (s.cpu.pc + 1)) ||| (s.memory (u16 (s.cpu.pc + 2)) <<< 8))

/-- The reset state with a zero-page operand `0xFF` at the program counter and
`X = 2`. -/
def zeroPageWrapState : Machine := (boot 0x100 0x100 [0xFF, 0x00] []).setX 2

/-- Consecutive calls of `Main.execute_instruction`, `n` of them, stopping at
the first exit. -/
def Main.cycles : Nat → Machine → Result Unit
  | 0, s => .ok () s
  | n + 1, s =>
    match Main.execute_instruction s with
    | .ok () s1 => Main.cycles n s1
    | .exit f s1 => .exit f s1

/-- Consecutive calls of `Cache.execute_instruction`, `n` of them, stopping at
the first exit. -/
def Cache.cycles : Nat → Machine → Result Unit
  | 0, s => .ok () s
  | n + 1, s =>
    match Cache.execute_instruction s with
    | .ok () s1 => Cache.cycles n s1
    | .exit f s1 => .exit f s1

/-- The state `s` with the stack-pointer register field `cpu->sp` replaced. -/
def Machine.withSp (s : Machine) (q : Nat) : Machine :=
  { s with cpu := { s.cpu with sp := q } }

/-- The reset state with accumulator `0xFF`, the Carry flag set and
`ADC #$02` at the program counter. -/
def adcOverflowState : Machine :=
  ((boot 0x100 0x100 [0x69, 0x02] []).setA 0xFF).setP 0x02

/-- The test of the `if` in the four conditional-branch cases of
`execute_instruction`: whether opcode `op` takes its branch when the status
register holds `p`. -/
def branchTaken (op p : Nat) : Bool :=
  if op = 0xD0 then p &&& 0x01 ≠ 0
  else if op = 0xF0 then p &&& 0x01 = 0
  else if op = 0x90 then p &&& 0x02 = 0
  else if op = 0xB0 then p &&& 0x02 ≠ 0
  else false

/-- The state with `CMP #v` at `0x0100` followed by the branch `op` with
operand 5, and accumulator `a`. -/
def cmpBranchState (a v op : Nat) : Machine :=
  (boot 0x100 0x100 [0xC9, v, op, 0x05] []).setA a

/-- The reset state with `LDA ($10,X)` (`A1 10`) at `0x0100`, `X = 2`, the
pointer `0x0300` at `0x10..0x11`, the pointer `0x0400` at `0x12..0x13`, and
the bytes `0xBB` at `0x0302` and `0xAA` at `0x0400`. -/
def indexedIndirectState : Machine :=
  { (boot 0x100 0x100 [0xA1, 0x10] []).setX 2 with
    memory := store (store (store (store (store (store (memOf 0x100 [0xA1, 0x10])
      0x10 0x00) 0x11 0x03) 0x12 0x00) 0x13 0x04) 0x0302 0xBB) 0x0400 0xAA }

/-! ## Arithmetic of the C integer conversions -/

theorem lor_shiftLeft_eight (lo hi : Nat) (h : lo < 256) :
    lo ||| (hi <<< 8) = lo + 256 * hi := by
  have h1 : lo < 2 ^ 8 := by omega
  have := Nat.mul_add_lt_is_or h1 hi
  rw [Nat.shiftLeft_eq, Nat.or_comm, Nat.mul_comm hi, ← this]
  omega

theorem and_ff (n : Nat) : n &&& 0xFF = n % 256 :=
  Nat.and_pow_two_sub_one_eq_mod n 8

theorem and_ffff (n : Nat) : n &&& 0xFFFF = n % 65536 :=
  Nat.and_pow_two_sub_one_eq_mod n 16

/-! ## The addressing-mode resolver -/

theorem get_address_of_gt (s : Machine) (m : Nat) (h : 6 < m) :
    get_address s m = .exit (.InvalidAddressingMode m) s := by
  obtain ⟨k, rfl⟩ : ∃ k, m = k + 7 := ⟨m - 7, by omega⟩
  rfl

theorem get_address_fault_of_le (s : Machine) (m : Nat) (h : m ≤ 6) :
    (get_address s m).fault = none := by
  interval_cases m <;> rfl

/-- C8: for every state and every mode selector `m` in `0..255`,
`get_address` exits with `InvalidAddressingMode` naming `m` if and only if
`m > 6`; no selector `m ≤ 6` exits with any `InvalidAddressingMode`, and when
it exits the state (program counter and memory included) is the state it was
called in. -/
theorem get_address_invalid_mode_iff (s : Machine) (m : Nat) (hm : m < 256) :
    ((get_address s m).fault = some (.InvalidAddressingMode m) ↔ 6 < m) ∧
    ((∃ k, (get_address s m).fault = some (.InvalidAddressingMode k)) ↔ 6 < m) ∧
    (6 < m → (get_address s m).state = s ∧
      (get_address s m).state.cpu.pc = s.cpu.pc ∧
      (get_address s m).state.memory = s.memory) := by
  have _ := hm
  by_cases h : 6 < m
  · simp [get_address_of_gt s m h, Result.fault, Result.state, h]
  · have h0 := get_address_fault_of_le s m (by omega)
    simp [h0, h]

/-- Witness for C8 at the reset state and selector 7. -/
theorem get_address_invalid_mode_iff_witness :
    (7 : Nat) < 256 ∧
    (get_address (cpu_init []) 7).fault = some (.InvalidAddressingMode 7) ∧
    (get_address (cpu_init []) 7).state.cpu.pc = 0 :=
  ⟨by decide,
   (get_address_invalid_mode_iff (cpu_init []) 7 (by decide)).1.2 (by decide),
   by decide⟩

theorem memOf_lt (base : Nat) (bytes : List Nat) (h : ∀ b ∈ bytes, b < 256) (i : Nat) :
    memOf base bytes i < 256 := by
  unfold memOf
  split
  · next hi =>
    rw [List.getD_eq_getElem _ _ (by omega)]
    exact h _ (List.getElem_mem _)
  · decide

theorem boot_WF (pc base : Nat) (bytes input : List Nat) (hpc : pc < 65536)
    (h : ∀ b ∈ bytes, b < 256) : (boot pc base bytes input).WF where
  a_lt := by simp [boot, cpu_init]
  x_lt := by simp [boot, cpu_init]
  y_lt := by simp [boot, cpu_init]
  pc_lt := hpc
  sp_lt := by simp [boot, cpu_init]
  p_lt := by simp [boot, cpu_init]
  memory_lt := memOf_lt base bytes h
  stack_lt := fun _ => by simp [boot, cpu_init]
  stack_pointer_lt := by simp [boot, cpu_init]

/-- C9 as stated fails: in mode 0 (Immediate) the resolver moves the program
counter from `0x100` to `0x101`, not by zero, and in mode 2 (Absolute) it
moves it to `0x102`, by two and not by one. -/
theorem get_address_immediate_not_zero_width :
    (get_address (boot 0x100 0x100 [0x41] []) 0).state.cpu.pc = 0x101 ∧
    (get_address (boot 0x100 0x100 [0x41] []) 0).state.cpu.pc
      ≠ ((boot 0x100 0x100 [0x41] []).cpu.pc + 0) % 65536 ∧
    (get_address (boot 0x100 0x100 [0x41] []) 2).state.cpu.pc = 0x102 ∧
    (get_address (boot 0x100 0x100 [0x41] []) 2).state.cpu.pc
      ≠ ((boot 0x100 0x100 [0x41] []).cpu.pc + 1) % 65536 := by
  decide

/-- C9 (amended): for selectors `0..6` the resolver returns normally and
advances the program counter by exactly 1, 1, 2, 1, 2, 1, 2 respectively
(mod 65536); every other register, memory, the call stack and both character
streams are unchanged. -/
theorem get_address_pc_advance (s : Machine) (m : Nat) (hm : m ≤ 6) :
    (get_address s m).fault = none ∧
    (get_address s m).state.cpu.pc = (s.cpu.pc + [1, 1, 2, 1, 2, 1, 2].getD m 0) % 65536 ∧
    s.sameButPc (get_address s m).state := by
  interval_cases m <;>
    simp [get_address, fetch_byte, Result.fault, Result.state, Machine.sameButPc,
      Machine.setPc, u16]

/-- Witness for C9 (amended): Absolute mode at the reset state. -/
theorem get_address_pc_advance_witness :
    (2 : Nat) ≤ 6 ∧ (get_address (cpu_init []) 2).state.cpu.pc = 2 :=
  ⟨by decide, (get_address_pc_advance (cpu_init []) 2 (by decide)).2.1⟩

/-- C10: with `lo = memory[pc]` and `hi = memory[(pc+1) mod 65536]` the
resolver returns `lo` for ZeroPage, `lo + 256*hi` for Absolute,
`(lo + X) mod 256` and `(lo + Y) mod 256` for the zero-page indexed modes
(always below 256), and `(lo + 256*hi + X) mod 65536`,
`(lo + 256*hi + Y) mod 65536` for the absolute indexed modes. -/
theorem get_address_value (s : Machine) (h : s.WF) :
    (get_address s 1).value = some (s.memory s.cpu.pc) ∧
    (get_address s 2).value
      = some (s.memory s.cpu.pc + 256 * s.memory ((s.cpu.pc + 1) % 65536)) ∧
    (get_address s 3).value = some ((s.memory s.cpu.pc + s.cpu.x) % 256) ∧
    (get_address s 5).value = some ((s.memory s.cpu.pc + s.cpu.y) % 256) ∧
    (get_address s 4).value
      = some ((s.memory s.cpu.pc + 256 * s.memory ((s.cpu.pc + 1) % 65536) + s.cpu.x)
          % 65536) ∧
    (get_address s 6).value
      = some ((s.memory s.cpu.pc + 256 * s.memory ((s.cpu.pc + 1) % 65536) + s.cpu.y)
          % 65536) ∧
    (∀ a, (get_address s 3).value = some a → a < 256) ∧
    (∀ a, (get_address s 5).value = some a → a < 256) := by
  have hlo := h.memory_lt s.cpu.pc
  have hhi := h.memory_lt ((s.cpu.pc + 1) % 65536)
  simp only [get_address, fetch_byte, Result.value, Machine.setPc, u16, and_ff,
    lor_shiftLeft_eight _ _ hlo, Option.some.injEq]
  refine ⟨by omega, by omega, by omega, by omega, trivial, trivial, ?_, ?_⟩ <;>
    intro a ha <;> omega

/-- Witness for C10: a zero-page operand `0xFF` with `X = 2` resolves to
`0x0001`, not `0x0101`. -/
theorem get_address_value_witness :
    zeroPageWrapState.WF ∧
    (get_address zeroPageWrapState 3).value = some 0x0001 ∧
    (get_address zeroPageWrapState 3).value ≠ some 0x0101 := by
  have hwf : zeroPageWrapState.WF :=
    { boot_WF 0x100 0x100 [0xFF, 0x00] [] (by decide) (by decide) with x_lt := by decide }
  have h3 := (get_address_value zeroPageWrapState hwf).2.2.1
  exact ⟨hwf, h3, by rw [h3]; decide⟩

/-! ## The call stack -/

theorem execute_rts_empty (s : Machine) (h : s.memory s.cpu.pc = 0x60)
    (he : s.stack_pointer = 255) :
    (Main.execute_instruction s).fault = some .StackUnderflow ∧
    (Cache.execute_instruction s).fault = some .StackUnderflow := by
  simp [Main.execute_instruction, Cache.execute_instruction, fetch_byte, h, pop,
    Machine.setPc, he, Result.fault]

/-- C6: `push v` exits with `StackOverflow` exactly when the pointer is 0 and
otherwise stores `v` in the slot at the pointer, decrements the pointer and
leaves every other slot alone; `pop` exits with `StackUnderflow` exactly when
the pointer is 255 and otherwise increments the pointer and returns the slot
at the new pointer, leaving every slot alone; so a return (`0x60`) executed on
the empty call stack exits with `StackUnderflow`. -/
theorem push_pop_contract (s : Machine) (v : Nat) (hs : s.WF) (hv : v < 65536) :
    ((push s v).fault = some .StackOverflow ↔ s.stack_pointer = 0) ∧
    (s.stack_pointer ≠ 0 →
      (push s v).fault = none ∧
      (push s v).state.stack s.stack_pointer = v ∧
      (push s v).state.stack_pointer + 1 = s.stack_pointer ∧
      ∀ j, j ≠ s.stack_pointer → (push s v).state.stack j = s.stack j) ∧
    ((pop s).fault = some .StackUnderflow ↔ s.stack_pointer = 255) ∧
    (s.stack_pointer ≠ 255 →
      (pop s).fault = none ∧
      (pop s).state.stack_pointer = s.stack_pointer + 1 ∧
      (pop s).value = some (s.stack (s.stack_pointer + 1)) ∧
      (pop s).state.stack = s.stack) ∧
    (s.memory s.cpu.pc = 0x60 → s.stack_pointer = 255 →
      (Main.execute_instruction s).fault = some .StackUnderflow ∧
      (Cache.execute_instruction s).fault = some .StackUnderflow) := by
  have hsp := hs.stack_pointer_lt
  refine ⟨?_, ?_, ?_, ?_, execute_rts_empty s⟩
  · unfold push; split <;> simp [Result.fault, *]
  · intro h0
    have h1 : (s.stack_pointer - 1) % 256 = s.stack_pointer - 1 := by omega
    have h2 : v % 65536 = v := by omega
    simp only [push, h0, if_false, Result.fault, Result.state, store, u8, u16, h1, h2,
      if_true, true_and]
    refine ⟨by omega, fun j hj => by simp [hj]⟩
  · unfold pop; split <;> simp_all [Result.fault]
  · intro h0
    have h1 : (s.stack_pointer + 1) % 256 = s.stack_pointer + 1 := by omega
    have h0' : ¬ s.stack_pointer = 256 - 1 := h0
    simp [pop, h0', Result.fault, Result.state, Result.value, u8, h1]

/-- Witness for C6: pushing `0x1234` on the empty stack, and a return executed
on the empty stack. -/
theorem push_pop_contract_witness :
    (boot 0 0 [0x60] []).WF ∧ (0x1234 : Nat) < 65536 ∧
    (push (boot 0 0 [0x60] []) 0x1234).state.stack 255 = 0x1234 ∧
    (Main.execute_instruction (boot 0 0 [0x60] [])).fault = some .StackUnderflow :=
  have hwf : (boot 0 0 [0x60] []).WF := boot_WF 0 0 [0x60] [] (by decide) (by decide)
  ⟨hwf, by decide,
   ((push_pop_contract (boot 0 0 [0x60] []) 0x1234 hwf (by decide)).2.1 (by decide)).2.1,
   ((push_pop_contract (boot 0 0 [0x60] []) 0x1234 hwf (by decide)).2.2.2.2 rfl rfl).1⟩

theorem push_ok (s : Machine) (v : Nat) (h0 : s.stack_pointer ≠ 0)
    (hsp : s.stack_pointer < 256) :
    push s v = .ok () { s with stack := store s.stack s.stack_pointer (v % 65536)
                               stack_pointer := s.stack_pointer - 1 } := by
  have h1 : (s.stack_pointer - 1) % 256 = s.stack_pointer - 1 := by omega
  simp [push, h0, u8, u16, h1]

theorem pop_ok (s : Machine) (h : s.stack_pointer < 255) :
    pop s = .ok (s.stack (s.stack_pointer + 1))
      { s with stack_pointer := s.stack_pointer + 1 } := by
  have h0 : ¬ s.stack_pointer = 256 - 1 := by omega
  have h1 : (s.stack_pointer + 1) % 256 = s.stack_pointer + 1 := by omega
  simp [pop, h0, u8, h1]

theorem pushAll_ok (vs : List Nat) : ∀ (s : Machine), s.stack_pointer < 256 →
    vs.length ≤ s.stack_pointer →
    ∃ s1, pushAll s vs = .ok () s1 ∧ s1.stack_pointer + vs.length = s.stack_pointer ∧
      (∀ j, s.stack_pointer < j → s1.stack j = s.stack j) ∧
      (∀ i (hi : i < vs.length), s1.stack (s.stack_pointer - i) = vs[i] % 65536) ∧
      s1.cpu = s.cpu ∧ s1.memory = s.memory ∧ s1.output = s.output ∧ s1.input = s.input := by
  induction vs with
  | nil => intro s _ _; exact ⟨s, rfl, by simp, by simp, by simp, rfl, rfl, rfl, rfl⟩
  | cons v vs ih =>
    intro s hsp hlen
    simp only [List.length_cons] at hlen
    have h0 : s.stack_pointer ≠ 0 := by omega
    obtain ⟨s1, hpush, hptr, hkeep, hvals, hcpu, hmem, hout, hin⟩ :=
      ih { s with stack := store s.stack s.stack_pointer (v % 65536)
                  stack_pointer := s.stack_pointer - 1 }
        (by show s.stack_pointer - 1 < 256; omega)
        (by show vs.length ≤ s.stack_pointer - 1; omega)
    simp only at hptr hkeep hvals hcpu hmem hout hin
    refine ⟨s1, by simp only [pushAll, push_ok s v h0 hsp, hpush], ?_, ?_, ?_,
      hcpu, hmem, hout, hin⟩
    · simp only [List.length_cons]; omega
    · intro j hj
      rw [hkeep j (by omega)]
      simp only [store]
      rw [if_neg (by omega)]
    · intro i hi
      cases i with
      | zero =>
        rw [hkeep _ (by omega)]
        simp [store]
      | succ k =>
        simp only [List.length_cons] at hi
        have := hvals k (by omega)
        rw [show s.stack_pointer - (k + 1) = s.stack_pointer - 1 - k by omega, this]
        simp

theorem pushAll_overflow (vs : List Nat) : ∀ (s : Machine), s.stack_pointer < 256 →
    s.stack_pointer < vs.length → (pushAll s vs).fault = some .StackOverflow := by
  induction vs with
  | nil => intro s _ h; simp at h
  | cons v vs ih =>
    intro s hsp hlen
    simp only [List.length_cons] at hlen
    by_cases h0 : s.stack_pointer = 0
    · simp [pushAll, push, h0, Result.fault]
    · simp only [pushAll, push_ok s v h0 hsp]
      exact ih _ (by show s.stack_pointer - 1 < 256; omega)
        (by show s.stack_pointer - 1 < vs.length; omega)

theorem popN_ok (n : Nat) : ∀ (s : Machine), s.stack_pointer + n ≤ 255 →
    ∃ s2, popN s n = .ok ((List.range n).map fun i => s.stack (s.stack_pointer + 1 + i)) s2 ∧
      s2.stack_pointer = s.stack_pointer + n ∧ s2.stack = s.stack ∧
      s2.cpu = s.cpu ∧ s2.memory = s.memory ∧ s2.output = s.output ∧ s2.input = s.input := by
  induction n with
  | zero => intro s _; exact ⟨s, rfl, rfl, rfl, rfl, rfl, rfl, rfl⟩
  | succ n ih =>
    intro s h
    obtain ⟨s2, hpop, hptr, hstk, hcpu, hmem, hout, hin⟩ :=
      ih { s with stack_pointer := s.stack_pointer + 1 }
        (by show s.stack_pointer + 1 + n ≤ 255; omega)
    simp only at hpop hptr hstk hcpu hmem hout hin
    refine ⟨s2, ?_, by omega, hstk, hcpu, hmem, hout, hin⟩
    simp only [popN, pop_ok s (by omega), hpop, List.range_succ_eq_map, List.map_cons,
      List.map_map]
    congr 2
    apply List.map_congr_left
    intro i _
    simp only [Function.comp, Nat.succ_eq_add_one]
    congr 1
    omega

/-- C4: if consecutive pushes of 16-bit addresses starting from the empty
call stack (pointer 255) all succeed, then as many consecutive pops all
succeed, return the pushed addresses in reverse order and leave the pointer
at 255.  (The pushes can only all succeed for at most 255 addresses, so this
covers every `N ≤ 256`.) -/
theorem push_then_pop_reverse (s : Machine) (vs : List Nat)
    (hempty : s.stack_pointer = 255) (hvs : ∀ v ∈ vs, v < 65536)
    (hpush : (pushAll s vs).fault = none) :
    (popN (pushAll s vs).state vs.length).fault = none ∧
    (popN (pushAll s vs).state vs.length).value = some vs.reverse ∧
    (popN (pushAll s vs).state vs.length).state.stack_pointer = 255 := by
  have hsp : s.stack_pointer < 256 := by omega
  have hlen : vs.length ≤ s.stack_pointer := by
    by_contra hc
    rw [pushAll_overflow vs s hsp (by omega)] at hpush
    exact absurd hpush (by simp)
  obtain ⟨s1, hp, hptr, -, hvals, -⟩ := pushAll_ok vs s hsp hlen
  obtain ⟨s2, hq, hptr2, -⟩ := popN_ok vs.length s1 (by omega)
  rw [hp]
  simp only [Result.state, hq, Result.fault, Result.value, true_and, Option.some.injEq]
  refine ⟨?_, by omega⟩
  apply List.ext_getElem
  · simp
  · intro i h1 h2
    simp only [List.length_map, List.length_range] at h1
    simp only [List.getElem_map, List.getElem_range, List.getElem_reverse]
    have hv := hvals (vs.length - 1 - i) (by omega)
    have hlt : vs[vs.length - 1 - i] < 65536 := hvs _ (List.getElem_mem _)
    rw [show s1.stack_pointer + 1 + i = s.stack_pointer - (vs.length - 1 - i) by omega, hv]
    omega

/-- Witness for C4: three addresses pushed on the reset state. -/
theorem push_then_pop_reverse_witness :
    (cpu_init []).stack_pointer = 255 ∧
    (pushAll (cpu_init []) [0x0105, 0x2005, 0xFFFF]).fault = none ∧
    (popN (pushAll (cpu_init []) [0x0105, 0x2005, 0xFFFF]).state 3).value
      = some [0xFFFF, 0x2005, 0x0105] :=
  ⟨rfl, by decide,
   (push_then_pop_reverse (cpu_init []) [0x0105, 0x2005, 0xFFFF] rfl (by decide)
     (by decide)).2.1⟩

theorem u16_succ_succ (c : Nat) : u16 (u16 (c + 1) + 1) = u16 (c + 2) := by
  simp only [u16]; omega

theorem u16_succ_add_two (c : Nat) : u16 (u16 (c + 1) + 2) = u16 (c + 3) := by
  simp only [u16]; omega

theorem operand16_eq (s : Machine) (hs : s.WF) :
    operand16 s = s.memory ((s.cpu.pc + 1) % 65536) + 256 * s.memory ((s.cpu.pc + 2) % 65536) := by
  have hlo := hs.memory_lt ((s.cpu.pc + 1) % 65536)
  have hhi := hs.memory_lt ((s.cpu.pc + 2) % 65536)
  simp only [operand16, u16, lor_shiftLeft_eight _ _ hlo]
  omega

theorem jsr_overflow_main (s : Machine) (h : s.memory s.cpu.pc = 0x20)
    (h0 : s.stack_pointer = 0) :
    Main.execute_instruction s = .exit .StackOverflow (s.setPc (s.cpu.pc + 1)) := by
  simp [Main.execute_instruction, fetch_byte, h, push, Machine.setPc, h0]

theorem jsr_overflow_cache (s : Machine) (h : s.memory s.cpu.pc = 0x20)
    (h0 : s.stack_pointer = 0) :
    Cache.execute_instruction s = .exit .StackOverflow (s.setPc (s.cpu.pc + 1)) := by
  simp [Cache.execute_instruction, fetch_byte, h, push, Machine.setPc, h0]

theorem jsr_trap_main (s : Machine) (h : s.memory s.cpu.pc = 0x20)
    (h0 : s.stack_pointer ≠ 0) (hsp : s.stack_pointer < 256) (ht : operand16 s = 0x25) :
    Main.execute_instruction s = .ok ()
      { s with cpu := { s.cpu with pc := u16 (s.cpu.pc + 3) }
               stack := store s.stack s.stack_pointer (u16 (s.cpu.pc + 3))
               output := s.output ++ [u8 s.cpu.a] } := by
  have h1 : s.stack_pointer - 1 < 255 := by omega
  have h2 : s.stack_pointer - 1 + 1 = s.stack_pointer := by omega
  have hp := push_ok (s.setPc (s.cpu.pc + 1)) ((s.setPc (s.cpu.pc + 1)).cpu.pc + 2) h0 hsp
  simp only [Machine.setPc] at hp
  simp only [operand16] at ht
  simp only [Main.execute_instruction, fetch_byte, h, Machine.setPc, hp, u16_succ_succ, ht,
    if_true]
  rw [pop_ok _ h1]
  simp [h2, store, u16_succ_add_two, u16]

theorem jsr_call_main (s : Machine) (h : s.memory s.cpu.pc = 0x20)
    (h0 : s.stack_pointer ≠ 0) (hsp : s.stack_pointer < 256) (ht : operand16 s ≠ 0x25) :
    Main.execute_instruction s = .ok ()
      { s with cpu := { s.cpu with pc := operand16 s }
               stack := store s.stack s.stack_pointer (u16 (s.cpu.pc + 3))
               stack_pointer := s.stack_pointer - 1 } := by
  have hp := push_ok (s.setPc (s.cpu.pc + 1)) ((s.setPc (s.cpu.pc + 1)).cpu.pc + 2) h0 hsp
  simp only [Machine.setPc] at hp
  simp only [operand16] at ht
  simp only [Main.execute_instruction, fetch_byte, h, Machine.setPc, hp, u16_succ_succ, ht,
    if_false]
  simp [u16_succ_add_two, u16, operand16]

theorem jsr_trap_cache (s : Machine) (h : s.memory s.cpu.pc = 0x20)
    (h0 : s.stack_pointer ≠ 0) (hsp : s.stack_pointer < 256) (ht : operand16 s = 0x25)
    (hr : u16 (s.cpu.pc + 3) ≠ 0x26) :
    Cache.execute_instruction s = .ok ()
      { s with cpu := { s.cpu with pc := u16 (s.cpu.pc + 3) }
               stack := store s.stack s.stack_pointer (u16 (s.cpu.pc + 3))
               output := s.output ++ [u8 s.cpu.a] } := by
  have h1 : s.stack_pointer - 1 < 255 := by omega
  have h2 : s.stack_pointer - 1 + 1 = s.stack_pointer := by omega
  have hp := push_ok (s.setPc (s.cpu.pc + 1)) ((s.setPc (s.cpu.pc + 1)).cpu.pc + 2) h0 hsp
  simp only [Machine.setPc] at hp
  simp only [operand16] at ht
  simp only [u16] at hr
  simp only [Cache.execute_instruction, fetch_byte, h, Machine.setPc, hp, u16_succ_succ, ht,
    if_true]
  rw [pop_ok _ h1]
  simp [h2, store, u16_succ_add_two, u16, hr]

theorem jsr_call_cache (s : Machine) (h : s.memory s.cpu.pc = 0x20)
    (h0 : s.stack_pointer ≠ 0) (hsp : s.stack_pointer < 256) (ht : operand16 s ≠ 0x25)
    (ht2 : operand16 s ≠ 0x26) :
    Cache.execute_instruction s = .ok ()
      { s with cpu := { s.cpu with pc := operand16 s }
               stack := store s.stack s.stack_pointer (u16 (s.cpu.pc + 3))
               stack_pointer := s.stack_pointer - 1 } := by
  have hp := push_ok (s.setPc (s.cpu.pc + 1)) ((s.setPc (s.cpu.pc + 1)).cpu.pc + 2) h0 hsp
  simp only [Machine.setPc] at hp
  simp only [operand16] at ht ht2
  simp only [Cache.execute_instruction, fetch_byte, h, Machine.setPc, hp, u16_succ_succ, ht,
    if_false, ht2]
  simp [u16_succ_add_two, u16, operand16]

/-- C3: for every well-formed state whose call stack is not full, a call
(`0x20`) at `c` whose target `t = memory[c+1] + 256*memory[c+2]` is neither
trap address returns normally, writes the return address `(c + 3) mod 65536`
into the slot at the stack pointer and into no other slot, lowers the stack
pointer by one, sets the program counter to `t` and changes no other register,
no memory byte and neither character stream; this holds for both versions of
the dispatcher. -/
theorem jsr_pushes_return_address (s : Machine) (hs : s.WF)
    (hop : s.memory s.cpu.pc = 0x20) (hfull : s.stack_pointer ≠ 0)
    (h25 : s.memory ((s.cpu.pc + 1) % 65536) + 256 * s.memory ((s.cpu.pc + 2) % 65536) ≠ 0x25)
    (h26 : s.memory ((s.cpu.pc + 1) % 65536) + 256 * s.memory ((s.cpu.pc + 2) % 65536) ≠ 0x26) :
    ∀ r, (r = Main.execute_instruction s ∨ r = Cache.execute_instruction s) →
      r.fault = none ∧
      r.state.stack s.stack_pointer = (s.cpu.pc + 3) % 65536 ∧
      (∀ j, j ≠ s.stack_pointer → r.state.stack j = s.stack j) ∧
      r.state.stack_pointer + 1 = s.stack_pointer ∧
      r.state.cpu.pc
        = s.memory ((s.cpu.pc + 1) % 65536) + 256 * s.memory ((s.cpu.pc + 2) % 65536) ∧
      s.sameButPc { r.state with stack := s.stack, stack_pointer := s.stack_pointer } := by
  have hsp := hs.stack_pointer_lt
  rw [← operand16_eq s hs] at h25 h26 ⊢
  have hm := jsr_call_main s hop hfull hsp h25
  have hc := jsr_call_cache s hop hfull hsp h25 h26
  intro r hr
  have hr' : r = .ok ()
      { s with cpu := { s.cpu with pc := operand16 s }
               stack := store s.stack s.stack_pointer (u16 (s.cpu.pc + 3))
               stack_pointer := s.stack_pointer - 1 } := by
    rcases hr with hr | hr
    · rw [hr, hm]
    · rw [hr, hc]
  subst hr'
  refine ⟨rfl, ?_, ?_, ?_, rfl, ?_⟩
  · simp [Result.state, store, u16]
  · intro j hj
    simp [Result.state, store, hj]
  · simp only [Result.state]; omega
  · simp [Result.state, Machine.sameButPc]

/-- Witness for C3: the demo call `JSR $2000` at `0x0102`. -/
theorem jsr_pushes_return_address_witness :
    (boot 0x102 0x100 [0xA9, 0x41, 0x20, 0x00, 0x20] []).WF ∧
    (Main.execute_instruction (boot 0x102 0x100 [0xA9, 0x41, 0x20, 0x00, 0x20] [])).state.cpu.pc
      = 0x2000 ∧
    (Main.execute_instruction (boot 0x102 0x100 [0xA9, 0x41, 0x20, 0x00, 0x20] [])).state.stack 255
      = 0x105 :=
  have hwf : (boot 0x102 0x100 [0xA9, 0x41, 0x20, 0x00, 0x20] []).WF :=
    boot_WF _ _ _ _ (by decide) (by decide)
  have h := jsr_pushes_return_address _ hwf (by decide) (by decide) (by decide) (by decide)
    _ (Or.inl rfl)
  ⟨hwf, h.2.2.2.2.1, h.2.1⟩

/-- In `src/main.c` a call to the output trap `0x0025` from any call site `c`
emits the accumulator, keeps accumulator, input and call stack pointer, and
continues at `(c + 3) mod 65536`; the cached copy does the same whenever that
return address is not `0x0026`. -/
theorem jsr_output_trap_spec (s : Machine) (hs : s.WF)
    (hop : s.memory s.cpu.pc = 0x20) (hfull : s.stack_pointer ≠ 0)
    (h25 : s.memory ((s.cpu.pc + 1) % 65536) + 256 * s.memory ((s.cpu.pc + 2) % 65536) = 0x25) :
    ∀ r, (r = Main.execute_instruction s ∨
          (r = Cache.execute_instruction s ∧ (s.cpu.pc + 3) % 65536 ≠ 0x26)) →
      r.fault = none ∧ r.state.output = s.output ++ [s.cpu.a] ∧
      r.state.input = s.input ∧ r.state.cpu.a = s.cpu.a ∧
      r.state.stack_pointer = s.stack_pointer ∧
      r.state.cpu.pc = (s.cpu.pc + 3) % 65536 := by
  have hsp := hs.stack_pointer_lt
  have ha : s.cpu.a % 256 = s.cpu.a := Nat.mod_eq_of_lt hs.a_lt
  rw [← operand16_eq s hs] at h25
  intro r hr
  have hr' : r = .ok ()
      { s with cpu := { s.cpu with pc := u16 (s.cpu.pc + 3) }
               stack := store s.stack s.stack_pointer (u16 (s.cpu.pc + 3))
               output := s.output ++ [u8 s.cpu.a] } := by
    rcases hr with hr | ⟨hr, hne⟩
    · rw [hr, jsr_trap_main s hop hfull hsp h25]
    · rw [hr, jsr_trap_cache s hop hfull hsp h25 hne]
  subst hr'
  simp [Result.fault, Result.state, u8, u16, ha]

/-- Witness for `jsr_output_trap_spec`: the demo call `JSR $0025` at
`0x0102`. -/
theorem jsr_output_trap_spec_witness :
    (boot 0x102 0x100 [0xA9, 0x41, 0x20, 0x25, 0x00] []).WF ∧
    (Main.execute_instruction
      (boot 0x102 0x100 [0xA9, 0x41, 0x20, 0x25, 0x00] [])).state.cpu.pc = 0x105 :=
  have hwf : (boot 0x102 0x100 [0xA9, 0x41, 0x20, 0x25, 0x00] []).WF :=
    boot_WF _ _ _ _ (by decide) (by decide)
  ⟨hwf, (jsr_output_trap_spec _ hwf (by decide) (by decide) (by decide)
    _ (Or.inl rfl)).2.2.2.2.2⟩

/-- C2 fails in the cached copy of `main.c`: with `JSR $0025` at `0x0023`
(return address `0x0026`), an empty call stack, accumulator 0 and one
pending input byte `0x37`, the cycle emits the accumulator, then falls into
the input-trap test, consumes the input byte, overwrites the accumulator and
exits with `StackUnderflow`. -/
theorem jsr_output_trap_cache_at_0x23 :
    (boot 0x23 0x23 [0x20, 0x25, 0x00] [0x37]).stack_pointer ≠ 0 ∧
    (boot 0x23 0x23 [0x20, 0x25, 0x00] [0x37]).memory 0x23 = 0x20 ∧
    (boot 0x23 0x23 [0x20, 0x25, 0x00] [0x37]).memory 0x24
      + 256 * (boot 0x23 0x23 [0x20, 0x25, 0x00] [0x37]).memory 0x25 = 0x25 ∧
    (Cache.execute_instruction (boot 0x23 0x23 [0x20, 0x25, 0x00] [0x37])).fault
      = some .StackUnderflow ∧
    (Cache.execute_instruction (boot 0x23 0x23 [0x20, 0x25, 0x00] [0x37])).state.output = [0] ∧
    (Cache.execute_instruction (boot 0x23 0x23 [0x20, 0x25, 0x00] [0x37])).state.input = [] ∧
    (Cache.execute_instruction (boot 0x23 0x23 [0x20, 0x25, 0x00] [0x37])).state.cpu.a = 0x37 ∧
    (boot 0x23 0x23 [0x20, 0x25, 0x00] [0x37]).cpu.a = 0 := by
  decide

/-! ## The dispatcher: unknown opcodes -/

theorem unknown_opcode_main (s : Machine) (h : s.memory s.cpu.pc ∉ supportedOpcodes) :
    Main.execute_instruction s
      = .exit (.UnknownOpcode (s.memory s.cpu.pc)) (s.setPc (s.cpu.pc + 1)) := by
  simp only [supportedOpcodes, List.mem_cons, List.mem_singleton, not_or, List.mem_nil_iff,
    not_false_eq_true, and_true] at h
  simp only [Main.execute_instruction, fetch_byte]
  split <;> first | rfl | omega

theorem unknown_opcode_cache (s : Machine) (h : s.memory s.cpu.pc ∉ supportedOpcodes) :
    Cache.execute_instruction s
      = .exit (.UnknownOpcode (s.memory s.cpu.pc)) (s.setPc (s.cpu.pc + 1)) := by
  simp only [supportedOpcodes, List.mem_cons, List.mem_singleton, not_or, List.mem_nil_iff,
    not_false_eq_true, and_true] at h
  simp only [Cache.execute_instruction, fetch_byte]
  split <;> first | rfl | omega

theorem jsr_not_unknown_main (s : Machine) (h : s.memory s.cpu.pc = 0x20) (v : Nat) :
    (Main.execute_instruction s).fault ≠ some (.UnknownOpcode v) := by
  simp only [Main.execute_instruction, fetch_byte, h, push, pop, Cache.read_char]
  repeat' (first | split_ifs | split)
  all_goals first
    | (simp [Result.fault]; done)
    | (simp only [Result.fault, Result.exit.injEq, Option.some.injEq, false_and,
        reduceCtorEq] at *; done)
    | (simp only [Result.fault, Result.exit.injEq, Option.some.injEq, false_and, reduceCtorEq,
        ne_eq] at *
       rintro rfl
       simp_all)

theorem jsr_not_unknown_cache (s : Machine) (h : s.memory s.cpu.pc = 0x20) (v : Nat) :
    (Cache.execute_instruction s).fault ≠ some (.UnknownOpcode v) := by
  simp only [Cache.execute_instruction, fetch_byte, h, push, pop, Cache.read_char]
  repeat' (first | split_ifs | split)
  all_goals first
    | (simp [Result.fault]; done)
    | (simp only [Result.fault, Result.exit.injEq, Option.some.injEq, false_and,
        reduceCtorEq] at *; done)
    | (simp only [Result.fault, Result.exit.injEq, Option.some.injEq, false_and, reduceCtorEq,
        ne_eq] at *
       rintro rfl
       simp_all)

theorem known_opcode_main (s : Machine) (h : s.memory s.cpu.pc ∈ supportedOpcodes) (v : Nat) :
    (Main.execute_instruction s).fault ≠ some (.UnknownOpcode v) := by
  simp only [supportedOpcodes, List.mem_cons, List.mem_singleton, List.mem_nil_iff,
    or_false] at h
  rcases h with h | h | h | h | h | h | h | h | h | h | h | h | h | h | h | h | h | h | h
    | h | h | h | h | h | h | h | h | h | h <;>
  first
  | exact jsr_not_unknown_main s h v
  | (simp [Main.execute_instruction, fetch_byte, h, read_byte, write_byte, get_address, pop,
      Result.fault, Machine.setPc, Machine.setA, Machine.setX, Machine.setY, Machine.setSp,
      Machine.setP] <;> (split_ifs <;> simp))

theorem known_opcode_cache (s : Machine) (h : s.memory s.cpu.pc ∈ supportedOpcodes) (v : Nat) :
    (Cache.execute_instruction s).fault ≠ some (.UnknownOpcode v) := by
  simp only [supportedOpcodes, List.mem_cons, List.mem_singleton, List.mem_nil_iff,
    or_false] at h
  rcases h with h | h | h | h | h | h | h | h | h | h | h | h | h | h | h | h | h | h | h
    | h | h | h | h | h | h | h | h | h | h <;>
  first
  | exact jsr_not_unknown_cache s h v
  | (simp [Cache.execute_instruction, fetch_byte, h, read_byte, write_byte, get_address, pop,
      Result.fault, Machine.setPc, Machine.setA, Machine.setX, Machine.setY, Machine.setSp,
      Machine.setP] <;> (split_ifs <;> simp))

/-- C7: for every state, with `b` the byte at the program counter, one
dispatch cycle (either version of the dispatcher) exits with `UnknownOpcode`
if and only if `b` is not one of the 29 case labels; the reported value is
exactly `b`, and at the exit nothing but the program counter differs from the
state before the cycle: no output emitted, no input consumed, memory, call
stack and the other registers unchanged. -/
theorem unknown_opcode_iff (s : Machine) :
    ((∃ v, (Main.execute_instruction s).fault = some (.UnknownOpcode v))
      ↔ s.memory s.cpu.pc ∉ supportedOpcodes) ∧
    ((∃ v, (Cache.execute_instruction s).fault = some (.UnknownOpcode v))
      ↔ s.memory s.cpu.pc ∉ supportedOpcodes) ∧
    (∀ v, (Main.execute_instruction s).fault = some (.UnknownOpcode v) →
      v = s.memory s.cpu.pc ∧ s.sameButPc (Main.execute_instruction s).state) ∧
    (∀ v, (Cache.execute_instruction s).fault = some (.UnknownOpcode v) →
      v = s.memory s.cpu.pc ∧ s.sameButPc (Cache.execute_instruction s).state) ∧
    supportedOpcodes.length = 29 := by
  by_cases hk : s.memory s.cpu.pc ∈ supportedOpcodes
  · have hm := known_opcode_main s hk
    have hc := known_opcode_cache s hk
    refine ⟨⟨fun ⟨v, hv⟩ => absurd hv (hm v), fun h => absurd hk h⟩,
      ⟨fun ⟨v, hv⟩ => absurd hv (hc v), fun h => absurd hk h⟩,
      fun v hv => absurd hv (hm v), fun v hv => absurd hv (hc v), rfl⟩
  · rw [unknown_opcode_main s hk, unknown_opcode_cache s hk]
    simp only [Result.fault, Result.state, Option.some.injEq, Fault.UnknownOpcode.injEq,
      exists_eq', hk, not_false_eq_true, Machine.sameButPc, Machine.setPc, and_self, true_and,
      iff_self]
    exact ⟨fun v hv => ⟨hv.symm, trivial⟩, fun v hv => ⟨hv.symm, trivial⟩, rfl⟩

/-! ## The dispatcher: program-counter advance -/

/-- C1 fails at opcode `0xE6`: with `E6 80 90` at `0x0010` one dispatch cycle
ends with the program counter at `0x0013`, not at `0x0010 + 1 + 1`, because
both `read_byte` and `write_byte` consume an operand byte; the cell named by
the first operand is left alone and the cell named by the second one receives
the incremented value. -/
theorem inc_zero_page_pc_at_0x10 :
    (boot 0x10 0x10 [0xE6, 0x80, 0x90] []).memory 0x10 = 0xE6 ∧
    (Main.execute_instruction (boot 0x10 0x10 [0xE6, 0x80, 0x90] [])).fault = none ∧
    (Main.execute_instruction (boot 0x10 0x10 [0xE6, 0x80, 0x90] [])).state.cpu.pc = 0x13 ∧
    (Main.execute_instruction (boot 0x10 0x10 [0xE6, 0x80, 0x90] [])).state.cpu.pc
      ≠ ((boot 0x10 0x10 [0xE6, 0x80, 0x90] []).cpu.pc + 1 + 1) % 65536 ∧
    (Main.execute_instruction (boot 0x10 0x10 [0xE6, 0x80, 0x90] [])).state.memory 0x80 = 0 ∧
    (Main.execute_instruction (boot 0x10 0x10 [0xE6, 0x80, 0x90] [])).state.memory 0x90 = 1 ∧
    (Cache.execute_instruction (boot 0x10 0x10 [0xE6, 0x80, 0x90] [])).state.cpu.pc = 0x13 := by
  decide

/-- In every state opcode `0xE6` advances the program counter by three. -/
theorem inc_zero_page_pc (s : Machine) (h : s.memory s.cpu.pc = 0xE6) :
    (Main.execute_instruction s).fault = none ∧
    (Main.execute_instruction s).state.cpu.pc = (s.cpu.pc + 3) % 65536 ∧
    (Cache.execute_instruction s).fault = none ∧
    (Cache.execute_instruction s).state.cpu.pc = (s.cpu.pc + 3) % 65536 := by
  simp [Main.execute_instruction, Cache.execute_instruction, fetch_byte, h, read_byte,
    write_byte, get_address, Result.fault, Result.state, Machine.setPc, u16]

/-- Apart from `0xE6`, every opcode that is not a jump, branch, call or return
advances the program counter by one plus its operand width: 0 for the implied
opcodes, 1 for the immediate and zero-page ones, 2 for the absolute ones. -/
theorem pc_advance_main (s : Machine) :
    (s.memory s.cpu.pc ∈ [0xE8, 0xC8, 0x9A, 0xBA, 0xAA, 0x8A, 0xA8, 0x98] →
      (Main.execute_instruction s).fault = none ∧
      (Main.execute_instruction s).state.cpu.pc = (s.cpu.pc + 1 + 0) % 65536) ∧
    (s.memory s.cpu.pc ∈ [0xA9, 0xA0, 0xA2, 0x69, 0xC9, 0xA6, 0xA1] →
      (Main.execute_instruction s).fault = none ∧
      (Main.execute_instruction s).state.cpu.pc = (s.cpu.pc + 1 + 1) % 65536) ∧
    (s.memory s.cpu.pc ∈ [0x8D, 0xAD, 0xAE, 0xAC, 0x9E, 0x9D] →
      (Main.execute_instruction s).fault = none ∧
      (Main.execute_instruction s).state.cpu.pc = (s.cpu.pc + 1 + 2) % 65536) := by
  refine ⟨fun h => ?_, fun h => ?_, fun h => ?_⟩ <;>
  simp only [List.mem_cons, List.mem_singleton, List.mem_nil_iff, or_false] at h
  · rcases h with h | h | h | h | h | h | h | h <;>
    simp [Main.execute_instruction, fetch_byte, h, Result.fault, Result.state, Machine.setPc,
      Machine.setA, Machine.setX, Machine.setY, Machine.setSp, u16]
  · rcases h with h | h | h | h | h | h | h
    all_goals
      simp only [Main.execute_instruction, fetch_byte, h, read_byte, get_address]
      try split_ifs
    all_goals
      simp [Result.fault, Result.state, Machine.setPc, Machine.setA, Machine.setX,
        Machine.setY, Machine.setP, u16]
  · rcases h with h | h | h | h | h | h <;>
    simp [Main.execute_instruction, fetch_byte, h, read_byte, write_byte, get_address,
      Result.fault, Result.state, Machine.setPc, Machine.setA, Machine.setY, u16]

/-! ## The dispatcher: single opcodes -/

theorem cache_eq_main (s : Machine) (h : s.memory s.cpu.pc ≠ 0x20) :
    Cache.execute_instruction s = Main.execute_instruction s := by
  by_cases hk : s.memory s.cpu.pc ∈ supportedOpcodes
  · simp only [supportedOpcodes, List.mem_cons, List.mem_singleton, List.mem_nil_iff,
      or_false] at hk
    rcases hk with h' | h' | h' | h' | h' | h' | h' | h' | h' | h' | h' | h' | h' | h' | h'
      | h' | h' | h' | h' | h' | h' | h' | h' | h' | h' | h' | h' | h' | h' <;>
    first
    | exact absurd h' h
    | simp only [Cache.execute_instruction, Main.execute_instruction, fetch_byte, h']
  · rw [unknown_opcode_main s hk, unknown_opcode_cache s hk]

theorem both_of_main (s : Machine) (h : s.memory s.cpu.pc ≠ 0x20) (r : Result Unit)
    (hr : r = Main.execute_instruction s ∨ r = Cache.execute_instruction s) :
    r = Main.execute_instruction s := by
  rcases hr with hr | hr
  · exact hr
  · rw [hr, cache_eq_main s h]

set_option maxRecDepth 100000 in
theorem status_bits (p : Nat) (hp : p < 256) :
    ((p &&& 0xFE) % 256) &&& 0x01 = 0 ∧
    ((p &&& 0xFE) % 256) / 2 = p / 2 ∧
    (((p &&& 0xFE) % 256 ||| 0x01) % 256) &&& 0x01 = 1 ∧
    (((p &&& 0xFE) % 256 ||| 0x01) % 256) / 2 = p / 2 ∧
    ((p &&& 0xFE) % 256) &&& 0x02 = p &&& 0x02 ∧
    (((p &&& 0xFE) % 256 ||| 0x01) % 256) &&& 0x02 = p &&& 0x02 := by
  revert p
  decide

theorem cmp_step_main (s : Machine) (h : s.memory s.cpu.pc = 0xC9) :
    Main.execute_instruction s = .ok ()
      { s with cpu := { s.cpu with
          pc := u16 (s.cpu.pc + 2)
          p := if s.cpu.a = s.memory (u16 (s.cpu.pc + 1))
               then u8 (u8 (s.cpu.p &&& 0xFE) ||| 0x01) else u8 (s.cpu.p &&& 0xFE) } } := by
  simp only [Main.execute_instruction, fetch_byte, h, Machine.setPc, Machine.setP,
    u16_succ_succ]
  split_ifs <;> rfl

theorem lda_step_main (s : Machine) (h : s.memory s.cpu.pc = 0xA9) :
    Main.execute_instruction s = .ok ()
      { s with cpu := { s.cpu with
          a := u8 (s.memory (u16 (s.cpu.pc + 1)))
          pc := u16 (s.cpu.pc + 2) } } := by
  simp only [Main.execute_instruction, fetch_byte, h, Machine.setPc, Machine.setA,
    u16_succ_succ]

theorem adc_step_main (s : Machine) (h : s.memory s.cpu.pc = 0x69) :
    Main.execute_instruction s = .ok ()
      { s with cpu := { s.cpu with
          a := u8 (s.cpu.a + s.memory (u16 (s.cpu.pc + 1)))
          pc := u16 (s.cpu.pc + 2) } } := by
  simp only [Main.execute_instruction, fetch_byte, h, Machine.setPc, Machine.setA,
    u16_succ_succ]

/-- C11: for every well-formed state whose opcode at the program counter is
the comparison `0xC9` with immediate operand `v`, one dispatch cycle (either
version) succeeds and leaves the Zero flag (bit 0 of the status register) set
if and only if the accumulator equals `v`, whatever its prior value; the
Carry flag (bit 1), every other status bit, the accumulator, X, Y and memory
are unchanged. -/
theorem cmp_sets_zero_flag (s : Machine) (hs : s.WF) (hop : s.memory s.cpu.pc = 0xC9) :
    ∀ r, (r = Main.execute_instruction s ∨ r = Cache.execute_instruction s) →
      r.fault = none ∧
      (r.state.cpu.p &&& 0x01 ≠ 0 ↔ s.cpu.a = s.memory ((s.cpu.pc + 1) % 65536)) ∧
      (r.state.cpu.p % 2 = 1 ↔ s.cpu.a = s.memory ((s.cpu.pc + 1) % 65536)) ∧
      r.state.cpu.p &&& 0x02 = s.cpu.p &&& 0x02 ∧
      r.state.cpu.p / 2 = s.cpu.p / 2 ∧
      r.state.cpu.a = s.cpu.a ∧ r.state.cpu.x = s.cpu.x ∧ r.state.cpu.y = s.cpu.y ∧
      r.state.memory = s.memory := by
  intro r hr
  have hr' := both_of_main s (by rw [hop]; decide) r hr
  rw [cmp_step_main s hop] at hr'
  subst hr'
  obtain ⟨b1, b2, b3, b4, b5, b6⟩ := status_bits s.cpu.p hs.p_lt
  have e1 : ∀ n : Nat, n % 2 = n &&& 1 := fun n => (Nat.and_one_is_mod n).symm
  simp only [Result.fault, Result.state, u8, u16, true_and, and_true]
  split_ifs with heq
  · simp [b3, b4, b6, e1, heq]
  · simp [b1, b2, b5, e1, heq]

/-- Witness for C11: `CMP #$00` with accumulator 0 sets the Zero flag. -/
theorem cmp_sets_zero_flag_witness :
    (boot 0x100 0x100 [0xC9, 0x00] []).WF ∧
    (Main.execute_instruction (boot 0x100 0x100 [0xC9, 0x00] [])).state.cpu.p % 2 = 1 :=
  have hwf : (boot 0x100 0x100 [0xC9, 0x00] []).WF :=
    boot_WF _ _ _ _ (by decide) (by decide)
  ⟨hwf, (cmp_sets_zero_flag _ hwf (by decide) _ (Or.inl rfl)).2.2.1.2 (by decide)⟩

/-- C12: for every well-formed state whose opcode at the program counter is
the immediate accumulator load `0xA9` with operand `v`, one dispatch cycle
(either version) succeeds with the accumulator equal to `v`; X, Y, the status
flags, the stack-pointer field, memory and the call stack are unchanged. -/
theorem lda_immediate_frame (s : Machine) (hs : s.WF) (hop : s.memory s.cpu.pc = 0xA9) :
    ∀ r, (r = Main.execute_instruction s ∨ r = Cache.execute_instruction s) →
      r.fault = none ∧
      r.state.cpu.a = s.memory ((s.cpu.pc + 1) % 65536) ∧
      r.state.cpu.x = s.cpu.x ∧ r.state.cpu.y = s.cpu.y ∧ r.state.cpu.p = s.cpu.p ∧
      r.state.cpu.sp = s.cpu.sp ∧ r.state.memory = s.memory ∧
      r.state.stack = s.stack ∧ r.state.stack_pointer = s.stack_pointer := by
  intro r hr
  have hr' := both_of_main s (by rw [hop]; decide) r hr
  rw [lda_step_main s hop] at hr'
  subst hr'
  have hv := hs.memory_lt ((s.cpu.pc + 1) % 65536)
  simp [Result.fault, Result.state, u8, u16, Nat.mod_eq_of_lt hv]

/-- Witness for C12: the demo instruction `LDA #$41`. -/
theorem lda_immediate_frame_witness :
    (boot 0x100 0x100 [0xA9, 0x41] []).WF ∧
    (Main.execute_instruction (boot 0x100 0x100 [0xA9, 0x41] [])).state.cpu.a = 0x41 :=
  have hwf : (boot 0x100 0x100 [0xA9, 0x41] []).WF :=
    boot_WF _ _ _ _ (by decide) (by decide)
  ⟨hwf, (lda_immediate_frame _ hwf (by decide) _ (Or.inl rfl)).2.1⟩

/-- C14: for every state whose opcode at the program counter is the add `0x69`
with immediate operand `v`, one dispatch cycle (either version) succeeds with
the accumulator equal to `(a + v) mod 256`, the same for every value of the
status register (no carry-in), and the status register is unchanged. -/
theorem adc_ignores_carry (s : Machine) (hop : s.memory s.cpu.pc = 0x69) :
    ∀ r, (r = Main.execute_instruction s ∨ r = Cache.execute_instruction s) →
      r.fault = none ∧
      r.state.cpu.a = (s.cpu.a + s.memory ((s.cpu.pc + 1) % 65536)) % 256 ∧
      r.state.cpu.p = s.cpu.p ∧
      ∀ q, (Main.execute_instruction (s.setP q)).state.cpu.a = r.state.cpu.a ∧
           (Cache.execute_instruction (s.setP q)).state.cpu.a = r.state.cpu.a ∧
           (Main.execute_instruction (s.setP q)).state.cpu.p = u8 q ∧
           (Cache.execute_instruction (s.setP q)).state.cpu.p = u8 q := by
  intro r hr
  have hr' := both_of_main s (by rw [hop]; decide) r hr
  rw [adc_step_main s hop] at hr'
  subst hr'
  refine ⟨rfl, rfl, rfl, fun q => ?_⟩
  have hq : (s.setP q).memory (s.setP q).cpu.pc = 0x69 := hop
  rw [cache_eq_main _ (by rw [hq]; decide), adc_step_main _ hq]
  exact ⟨rfl, rfl, rfl, rfl⟩

/-- Witness for C14: `0xFF + 0x02` with Carry set gives `0x01` and leaves the
status register at `0x02`. -/
theorem adc_ignores_carry_witness :
    adcOverflowState.memory adcOverflowState.cpu.pc = 0x69 ∧
    (Main.execute_instruction adcOverflowState).state.cpu.a = 0x01 ∧
    (Main.execute_instruction adcOverflowState).state.cpu.p = 0x02 :=
  ⟨by decide, (adc_ignores_carry adcOverflowState (by decide) _ (Or.inl rfl)).2.1,
   (adc_ignores_carry adcOverflowState (by decide) _ (Or.inl rfl)).2.2.1⟩

/-! ## The dispatcher: branches -/

theorem u16_add_u16 (a b : Nat) : u16 (u16 a + b) = u16 (a + b) := by
  simp only [u16]; omega

theorem branch_step_main (s : Machine) (op : Nat) (h : s.memory s.cpu.pc = op)
    (hop : op ∈ [0xD0, 0xF0, 0x90, 0xB0]) :
    Main.execute_instruction s = .ok ()
      (s.setPc (if branchTaken op s.cpu.p
        then s.cpu.pc + 2 + s.memory (u16 (s.cpu.pc + 1)) else s.cpu.pc + 2)) := by
  simp only [List.mem_cons, List.mem_singleton, List.mem_nil_iff, or_false] at hop
  rcases hop with rfl | rfl | rfl | rfl <;>
  simp only [Main.execute_instruction, fetch_byte, h, branchTaken] <;>
  split_ifs <;> simp_all [Machine.setPc, u16_add_u16, u16_succ_succ]

/-- C13: for each of the four conditional branch opcodes (`0xD0`, `0xF0`,
`0x90`, `0xB0`) at address `c` with operand byte `b`, one dispatch cycle
(either version) succeeds; when the opcode's branch test holds the new program
counter is `(c + 2 + b) mod 65536` with `b` taken as the unsigned byte, and
when it does not hold the new program counter is `(c + 2) mod 65536`; nothing
but the program counter changes. -/
theorem branch_unsigned_offset (s : Machine) (op : Nat) (h : s.memory s.cpu.pc = op)
    (hop : op ∈ [0xD0, 0xF0, 0x90, 0xB0]) :
    ∀ r, (r = Main.execute_instruction s ∨ r = Cache.execute_instruction s) →
      r.fault = none ∧
      (branchTaken op s.cpu.p = true →
        r.state.cpu.pc = (s.cpu.pc + 2 + s.memory ((s.cpu.pc + 1) % 65536)) % 65536) ∧
      (branchTaken op s.cpu.p = false → r.state.cpu.pc = (s.cpu.pc + 2) % 65536) ∧
      s.sameButPc r.state := by
  intro r hr
  have hne : s.memory s.cpu.pc ≠ 0x20 := by
    rw [h]; rintro rfl; simp at hop
  have hr' := both_of_main s hne r hr
  rw [branch_step_main s op h hop] at hr'
  subst hr'
  refine ⟨rfl, fun ht => ?_, fun hf => ?_, ?_⟩
  · simp [Result.state, Machine.setPc, ht, u16]
  · simp [Result.state, Machine.setPc, hf, u16]
  · simp [Result.state, Machine.setPc, Machine.sameButPc]

/-- Witness for C13: `BCC $FE` at `0x0100` with Carry clear moves forward to
`0x0200`, not backward to `0x0100`. -/
theorem branch_unsigned_offset_witness :
    (boot 0x100 0x100 [0x90, 0xFE] []).memory (boot 0x100 0x100 [0x90, 0xFE] []).cpu.pc = 0x90 ∧
    (Main.execute_instruction (boot 0x100 0x100 [0x90, 0xFE] [])).state.cpu.pc = 0x200 :=
  ⟨by decide,
   (branch_unsigned_offset (boot 0x100 0x100 [0x90, 0xFE] []) 0x90 (by decide) (by decide)
     _ (Or.inl rfl)).2.1 (by decide)⟩

/-! ## The dispatcher: zero-page increment -/

theorem inc_step_main (s : Machine) (h : s.memory s.cpu.pc = 0xE6) :
    Main.execute_instruction s = .ok ()
      { s with cpu := { s.cpu with pc := u16 (s.cpu.pc + 3) }
               memory := store s.memory (u16 (s.memory (u16 (s.cpu.pc + 2))))
                 (u8 ((s.memory (u16 (s.memory (u16 (s.cpu.pc + 1)))) + 1) &&& 0xFF)) } := by
  simp [Main.execute_instruction, fetch_byte, h, read_byte, write_byte, get_address,
    Machine.setPc, u16_succ_succ]

/-- In every well-formed state opcode `0xE6` with operand bytes `z1`, `z2`
stores `(memory[z1] + 1) mod 256` at `memory[z2]` and changes no other byte. -/
theorem inc_zero_page_memory (s : Machine) (hs : s.WF) (h : s.memory s.cpu.pc = 0xE6) :
    ∀ r, (r = Main.execute_instruction s ∨ r = Cache.execute_instruction s) →
      r.fault = none ∧
      r.state.memory = store s.memory (s.memory ((s.cpu.pc + 2) % 65536))
        ((s.memory (s.memory ((s.cpu.pc + 1) % 65536)) + 1) % 256) := by
  intro r hr
  have hr' := both_of_main s (by rw [h]; decide) r hr
  rw [inc_step_main s h] at hr'
  subst hr'
  have h1 := hs.memory_lt ((s.cpu.pc + 1) % 65536)
  have h2 := hs.memory_lt ((s.cpu.pc + 2) % 65536)
  have e1 : s.memory ((s.cpu.pc + 1) % 65536) % 65536 = s.memory ((s.cpu.pc + 1) % 65536) := by
    omega
  have e2 : s.memory ((s.cpu.pc + 2) % 65536) % 65536 = s.memory ((s.cpu.pc + 2) % 65536) := by
    omega
  simp [Result.fault, Result.state, u8, u16, and_ff, e1, e2]

/-- Witness for `inc_zero_page_memory`: `E6 80 90` at `0x0010`. -/
theorem inc_zero_page_memory_witness :
    (boot 0x10 0x10 [0xE6, 0x80, 0x90] []).WF ∧
    (Main.execute_instruction (boot 0x10 0x10 [0xE6, 0x80, 0x90] [])).fault = none :=
  have hwf : (boot 0x10 0x10 [0xE6, 0x80, 0x90] []).WF :=
    boot_WF _ _ _ _ (by decide) (by decide)
  ⟨hwf, (inc_zero_page_memory _ hwf (by decide) _ (Or.inl rfl)).1⟩

/-- C15 fails: with `E6 80 90` at `0x0010` and all other memory zero, the
operand byte is `z = 0x80`, yet after one dispatch cycle `memory[0x80]` is
still 0 instead of 1 and the byte at `0x90`, named by the following byte, has
become 1. -/
theorem inc_zero_page_memory_at_0x10 :
    (boot 0x10 0x10 [0xE6, 0x80, 0x90] []).memory 0x10 = 0xE6 ∧
    (boot 0x10 0x10 [0xE6, 0x80, 0x90] []).memory 0x11 = 0x80 ∧
    (boot 0x10 0x10 [0xE6, 0x80, 0x90] []).memory 0x80 = 0 ∧
    (boot 0x10 0x10 [0xE6, 0x80, 0x90] []).memory 0x90 = 0 ∧
    (Main.execute_instruction (boot 0x10 0x10 [0xE6, 0x80, 0x90] [])).state.memory 0x80 = 0 ∧
    (Main.execute_instruction (boot 0x10 0x10 [0xE6, 0x80, 0x90] [])).state.memory 0x80
      ≠ ((boot 0x10 0x10 [0xE6, 0x80, 0x90] []).memory 0x80 + 1) % 256 ∧
    (Main.execute_instruction (boot 0x10 0x10 [0xE6, 0x80, 0x90] [])).state.memory 0x90 = 1 ∧
    (Cache.execute_instruction (boot 0x10 0x10 [0xE6, 0x80, 0x90] [])).state.memory 0x80 = 0 ∧
    (Cache.execute_instruction (boot 0x10 0x10 [0xE6, 0x80, 0x90] [])).state.memory 0x90 = 1 := by
  decide

/-! ## The dispatcher: the input trap and call/return pairs -/

theorem jsr_input_cache (s : Machine) (h : s.memory s.cpu.pc = 0x20)
    (h0 : s.stack_pointer ≠ 0) (hsp : s.stack_pointer < 256) (ht : operand16 s = 0x26) :
    Cache.execute_instruction s = .ok ()
      { s with cpu := { s.cpu with pc := u16 (s.cpu.pc + 3), a := u8 (Cache.read_char s).1 }
               stack := store s.stack s.stack_pointer (u16 (s.cpu.pc + 3))
               input := (Cache.read_char s).2.input } := by
  have h1 : s.stack_pointer - 1 < 255 := by omega
  have h2 : s.stack_pointer - 1 + 1 = s.stack_pointer := by omega
  have hp := push_ok (s.setPc (s.cpu.pc + 1)) ((s.setPc (s.cpu.pc + 1)).cpu.pc + 2) h0 hsp
  simp only [Machine.setPc] at hp
  simp only [operand16] at ht
  simp only [Cache.execute_instruction, fetch_byte, h, Machine.setPc, hp, u16_succ_succ, ht]
  simp only [show ¬ ((38 : Nat) = 37) by decide, if_false, if_true, Machine.setA]
  cases hin : s.input with
  | nil =>
    simp only [Cache.read_char, hin]
    rw [pop_ok _ h1]
    simp [h2, store, u16_succ_add_two, u16, hin]
  | cons k rest =>
    simp only [Cache.read_char, hin]
    rw [pop_ok _ h1]
    simp [h2, store, u16_succ_add_two, u16]

/-- C16: in the cached copy of `main.c`, for every well-formed state whose
call stack is not full, every call site `c` holding a call (`0x20`) whose
target is the input trap `0x0026`, and every input stream with next character
`k`, one dispatch cycle succeeds, consumes exactly that one input character,
sets the accumulator to `k`, emits no output, leaves the call stack pointer as
it was and sets the program counter to `(c + 3) mod 65536`. -/
theorem jsr_input_trap (s : Machine) (hs : s.WF) (hop : s.memory s.cpu.pc = 0x20)
    (hfull : s.stack_pointer ≠ 0)
    (h26 : s.memory ((s.cpu.pc + 1) % 65536) + 256 * s.memory ((s.cpu.pc + 2) % 65536) = 0x26)
    (k : Nat) (rest : List Nat) (hin : s.input = k :: rest) (hk : k < 256) :
    (Cache.execute_instruction s).fault = none ∧
    (Cache.execute_instruction s).state.input = rest ∧
    (Cache.execute_instruction s).state.cpu.a = k ∧
    (Cache.execute_instruction s).state.output = s.output ∧
    (Cache.execute_instruction s).state.stack_pointer = s.stack_pointer ∧
    (Cache.execute_instruction s).state.cpu.pc = (s.cpu.pc + 3) % 65536 := by
  rw [← operand16_eq s hs] at h26
  rw [jsr_input_cache s hop hfull hs.stack_pointer_lt h26]
  simp [Result.fault, Result.state, Cache.read_char, hin, u8, u16, Nat.mod_eq_of_lt hk]

/-- Witness for C16: the call `JSR $0026` at `0x015A` of the second example
program, with input `0x37, 0x38`. -/
theorem jsr_input_trap_witness :
    (boot 0x15A 0x15A [0x20, 0x26, 0x00] [0x37, 0x38]).WF ∧
    (Cache.execute_instruction (boot 0x15A 0x15A [0x20, 0x26, 0x00] [0x37, 0x38])).state.cpu.a
      = 0x37 ∧
    (Cache.execute_instruction (boot 0x15A 0x15A [0x20, 0x26, 0x00] [0x37, 0x38])).state.input
      = [0x38] ∧
    (Cache.execute_instruction (boot 0x15A 0x15A [0x20, 0x26, 0x00] [0x37, 0x38])).state.cpu.pc
      = 0x15D :=
  have hwf : (boot 0x15A 0x15A [0x20, 0x26, 0x00] [0x37, 0x38]).WF :=
    boot_WF _ _ _ _ (by decide) (by decide)
  have h := jsr_input_trap _ hwf (by decide) (by decide) (by decide) 0x37 [0x38] rfl
    (by decide)
  ⟨hwf, h.2.2.1, h.2.1, h.2.2.2.2.2⟩

/-! ## Two dispatch cycles: call and return, load and print -/

theorem rts_step_main (s : Machine) (h : s.memory s.cpu.pc = 0x60)
    (hsp : s.stack_pointer < 255) :
    Main.execute_instruction s = .ok ()
      { s with cpu := { s.cpu with pc := u16 (s.stack (s.stack_pointer + 1)) }
               stack_pointer := s.stack_pointer + 1 } := by
  have hp := pop_ok (s.setPc (s.cpu.pc + 1)) hsp
  simp only [Machine.setPc] at hp
  simp only [Main.execute_instruction, fetch_byte, h, Machine.setPc, hp]

/-- C18: for every well-formed state whose call stack is not full, if a call
(`0x20`) at `c` targets an address `t` that is not a trap (`t ≠ 0x0025`, and
for the cached copy also `t ≠ 0x0026`) and `memory[t]` holds the return opcode
`0x60`, then two dispatch cycles succeed and end with the program counter at
`(c + 3) mod 65536`, the call stack pointer at its value before the call, and
all registers other than the program counter, memory and both character
streams unchanged. -/
theorem call_return_paired (s : Machine) (hs : s.WF)
    (hop : s.memory s.cpu.pc = 0x20) (hfull : s.stack_pointer ≠ 0)
    (h25 : s.memory ((s.cpu.pc + 1) % 65536) + 256 * s.memory ((s.cpu.pc + 2) % 65536) ≠ 0x25)
    (hrts : s.memory
      (s.memory ((s.cpu.pc + 1) % 65536) + 256 * s.memory ((s.cpu.pc + 2) % 65536)) = 0x60) :
    ∀ r, (r = Main.cycles 2 s ∨
          (r = Cache.cycles 2 s ∧
            s.memory ((s.cpu.pc + 1) % 65536) + 256 * s.memory ((s.cpu.pc + 2) % 65536)
              ≠ 0x26)) →
      r.fault = none ∧
      r.state.cpu.pc = (s.cpu.pc + 3) % 65536 ∧
      r.state.stack_pointer = s.stack_pointer ∧
      s.sameButPc { r.state with stack := s.stack } := by
  have hsp := hs.stack_pointer_lt
  rw [← operand16_eq s hs] at h25 hrts
  have h2 : s.stack_pointer - 1 + 1 = s.stack_pointer := by omega
  intro r hr
  have hr' : r = .ok ()
      { s with cpu := { s.cpu with pc := u16 (s.cpu.pc + 3) }
               stack := store s.stack s.stack_pointer (u16 (s.cpu.pc + 3)) } := by
    rcases hr with hr | ⟨hr, h26⟩
    · rw [hr]
      simp only [Main.cycles, jsr_call_main s hop hfull hsp h25]
      rw [rts_step_main _ hrts (by show s.stack_pointer - 1 < 255; omega)]
      simp [h2, store, u16]
    · rw [← operand16_eq s hs] at h26
      rw [hr]
      simp only [Cache.cycles, jsr_call_cache s hop hfull hsp h25 h26]
      rw [cache_eq_main _ (by show s.memory (operand16 s) ≠ 0x20; rw [hrts]; decide),
        rts_step_main _ hrts (by show s.stack_pointer - 1 < 255; omega)]
      simp [h2, store, u16]
  subst hr'
  simp [Result.fault, Result.state, Machine.sameButPc, u16]

/-- Witness for C18: `JSR $0103` at `0x0100` with `RTS` at `0x0103`. -/
theorem call_return_paired_witness :
    (boot 0x100 0x100 [0x20, 0x03, 0x01, 0x60] []).WF ∧
    (Main.cycles 2 (boot 0x100 0x100 [0x20, 0x03, 0x01, 0x60] [])).fault = none ∧
    (Main.cycles 2 (boot 0x100 0x100 [0x20, 0x03, 0x01, 0x60] [])).state.cpu.pc = 0x103 ∧
    (Main.cycles 2 (boot 0x100 0x100 [0x20, 0x03, 0x01, 0x60] [])).state.stack_pointer = 255 :=
  have hwf : (boot 0x100 0x100 [0x20, 0x03, 0x01, 0x60] []).WF :=
    boot_WF _ _ _ _ (by decide) (by decide)
  have h := call_return_paired _ hwf (by decide) (by decide) (by decide) (by decide)
    _ (Or.inl rfl)
  ⟨hwf, h.1, h.2.1, h.2.2.1⟩

/-- C17: for every byte `v`, in every state with an empty call stack, no
output yet, the program counter at `0x0100` and memory holding
`A9 v 20 25 00` at `0x0100..0x0104` (the reset state with the demo program
loaded is one), two dispatch cycles (either version) both succeed, the output
is exactly `[v]`, and they end with the program counter at `0x0105`, the
accumulator equal to `v` and the call stack empty again. -/
theorem lda_jsr_output_end_to_end (s : Machine) (v : Nat) (hv : v < 256)
    (hpc : s.cpu.pc = 0x0100) (hsp : s.stack_pointer = 255) (hout : s.output = [])
    (m0 : s.memory 0x0100 = 0xA9) (m1 : s.memory 0x0101 = v) (m2 : s.memory 0x0102 = 0x20)
    (m3 : s.memory 0x0103 = 0x25) (m4 : s.memory 0x0104 = 0x00) :
    ∀ r, (r = Main.cycles 2 s ∨ r = Cache.cycles 2 s) →
      r.fault = none ∧ r.state.output = [v] ∧ r.state.cpu.pc = 0x0105 ∧
      r.state.cpu.a = v ∧ r.state.stack_pointer = 255 := by
  have hop : s.memory s.cpu.pc = 0xA9 := by rw [hpc, m0]
  have hlda := lda_step_main s hop
  have hc1 : Cache.execute_instruction s = Main.execute_instruction s :=
    cache_eq_main s (by rw [hop]; decide)
  simp only [hpc, m1, u8, u16, Nat.mod_eq_of_lt hv] at hlda
  norm_num at hlda
  generalize hs1 : ({ s with cpu := { s.cpu with a := v, pc := 258 } } : Machine) = s1 at hlda
  have e_pc : s1.cpu.pc = 0x102 := by rw [← hs1]
  have e_a : s1.cpu.a = v := by rw [← hs1]
  have e_mem : s1.memory = s.memory := by rw [← hs1]
  have e_sp : s1.stack_pointer = 255 := by rw [← hs1]; exact hsp
  have e_out : s1.output = [] := by rw [← hs1]; exact hout
  have hjsr : s1.memory s1.cpu.pc = 0x20 := by rw [e_pc, e_mem, m2]
  have ht : operand16 s1 = 0x25 := by
    simp only [operand16, e_pc, e_mem, u16]
    norm_num [m3, m4]
  have hm := jsr_trap_main s1 hjsr (by omega) (by omega) ht
  have hc := jsr_trap_cache s1 hjsr (by omega) (by omega) ht (by rw [e_pc]; decide)
  intro r hr
  have hr' : r = .ok ()
      { s1 with cpu := { s1.cpu with pc := u16 (s1.cpu.pc + 3) }
                stack := store s1.stack s1.stack_pointer (u16 (s1.cpu.pc + 3))
                output := s1.output ++ [u8 s1.cpu.a] } := by
    rcases hr with hr | hr
    · rw [hr]; simp only [Main.cycles, hlda, hm]
    · rw [hr]; simp only [Cache.cycles, hc1, hlda, hc]
  subst hr'
  simp [Result.fault, Result.state, e_pc, e_a, e_sp, e_out, u8, u16, Nat.mod_eq_of_lt hv]

/-- Witness for C17: the demo program `LDA #$41 / JSR $0025` from the reset
state. -/
theorem lda_jsr_output_end_to_end_witness :
    (Main.cycles 2 (boot 0x100 0x100 [0xA9, 0x41, 0x20, 0x25, 0x00] [])).fault = none ∧
    (Main.cycles 2 (boot 0x100 0x100 [0xA9, 0x41, 0x20, 0x25, 0x00] [])).state.output = [0x41] ∧
    (Main.cycles 2 (boot 0x100 0x100 [0xA9, 0x41, 0x20, 0x25, 0x00] [])).state.cpu.pc = 0x105 :=
  have h := lda_jsr_output_end_to_end (boot 0x100 0x100 [0xA9, 0x41, 0x20, 0x25, 0x00] []) 0x41
    (by decide) rfl rfl rfl (by decide) (by decide) (by decide) (by decide) (by decide)
    _ (Or.inl rfl)
  ⟨h.1, h.2.1, h.2.2.1⟩

/-! ## What a dispatch cycle leaves alone: the Carry flag -/

theorem jsr_cpu_frame_main (s : Machine) (h : s.memory s.cpu.pc = 0x20) :
    (Main.execute_instruction s).state.cpu.p = s.cpu.p ∧
    (Main.execute_instruction s).state.cpu.sp = s.cpu.sp := by
  simp only [Main.execute_instruction, fetch_byte, h, push, pop, Machine.setPc]
  split_ifs <;> (try simp only []) <;> (try split_ifs) <;> (try simp only []) <;>
    simp only [Result.state, and_self]

theorem jsr_cpu_frame_cache (s : Machine) (h : s.memory s.cpu.pc = 0x20) :
    (Cache.execute_instruction s).state.cpu.p = s.cpu.p ∧
    (Cache.execute_instruction s).state.cpu.sp = s.cpu.sp := by
  simp only [Cache.execute_instruction, fetch_byte, h, push, pop, Cache.read_char, Machine.setPc,
    Machine.setA]
  split_ifs <;> (try simp only []) <;> (try split_ifs) <;> (try simp only []) <;>
    (try split_ifs) <;> (try simp only []) <;> (try split) <;>
    simp only [Result.state, and_self]

theorem exec_frame_main (s : Machine) :
    (s.memory s.cpu.pc ≠ 0xC9 → (Main.execute_instruction s).state.cpu.p = s.cpu.p) ∧
    (s.memory s.cpu.pc ≠ 0x9A → (Main.execute_instruction s).state.cpu.sp = s.cpu.sp) := by
  by_cases hk : s.memory s.cpu.pc ∈ supportedOpcodes
  · simp only [supportedOpcodes, List.mem_cons, List.mem_singleton, List.mem_nil_iff,
      or_false] at hk
    rcases hk with h | h | h | h | h | h | h | h | h | h | h | h | h | h | h | h | h | h | h
      | h | h | h | h | h | h | h | h | h | h <;>
    first
    | exact ⟨fun _ => (jsr_cpu_frame_main s h).1, fun _ => (jsr_cpu_frame_main s h).2⟩
    | (simp [Main.execute_instruction, fetch_byte, h, read_byte, write_byte, get_address, pop,
        Result.state, Machine.setPc, Machine.setA, Machine.setX, Machine.setY, Machine.setSp,
        Machine.setP]; done)
    | (simp only [Main.execute_instruction, fetch_byte, h, read_byte, write_byte, get_address,
        pop, Machine.setPc, Machine.setA, Machine.setX, Machine.setY, Machine.setSp,
        Machine.setP]
       split_ifs <;> simp [Result.state])
  · rw [unknown_opcode_main s hk]
    simp [Result.state, Machine.setPc]

theorem exec_frame_cache (s : Machine) :
    (s.memory s.cpu.pc ≠ 0xC9 → (Cache.execute_instruction s).state.cpu.p = s.cpu.p) ∧
    (s.memory s.cpu.pc ≠ 0x9A → (Cache.execute_instruction s).state.cpu.sp = s.cpu.sp) := by
  by_cases h : s.memory s.cpu.pc = 0x20
  · exact ⟨fun _ => (jsr_cpu_frame_cache s h).1, fun _ => (jsr_cpu_frame_cache s h).2⟩
  · rw [cache_eq_main s h]
    exact exec_frame_main s

theorem exec_carry_step (s : Machine) (hp : s.cpu.p < 256) (r : Result Unit)
    (hr : r = Main.execute_instruction s ∨ r = Cache.execute_instruction s) :
    r.state.cpu.p &&& 0x02 = s.cpu.p &&& 0x02 ∧ r.state.cpu.p < 256 := by
  by_cases hc : s.memory s.cpu.pc = 0xC9
  · have hr' := both_of_main s (by rw [hc]; decide) r hr
    rw [cmp_step_main s hc] at hr'
    subst hr'
    obtain ⟨-, -, -, -, b5, b6⟩ := status_bits s.cpu.p hp
    simp only [Result.state, u8]
    split_ifs
    · exact ⟨b6, Nat.mod_lt _ (by decide)⟩
    · exact ⟨b5, Nat.mod_lt _ (by decide)⟩
  · have hsame : r.state.cpu.p = s.cpu.p := by
      rcases hr with hr | hr
      · rw [hr]; exact (exec_frame_main s).1 hc
      · rw [hr]; exact (exec_frame_cache s).1 hc
    rw [hsame]
    exact ⟨rfl, hp⟩

theorem cycles_carry_main (n : Nat) : ∀ s0 : Machine, s0.cpu.p < 256 →
    (Main.cycles n s0).state.cpu.p &&& 0x02 = s0.cpu.p &&& 0x02 ∧
    (Main.cycles n s0).state.cpu.p < 256 := by
  induction n with
  | zero => intro s0 hp; exact ⟨rfl, hp⟩
  | succ n ih =>
    intro s0 hp
    have hstep := exec_carry_step s0 hp _ (Or.inl rfl)
    simp only [Main.cycles]
    cases hx : Main.execute_instruction s0 with
    | ok u s1 =>
      rw [hx] at hstep
      simp only [Result.state] at hstep
      have := ih s1 hstep.2
      exact ⟨this.1.trans hstep.1, this.2⟩
    | exit f s1 =>
      rw [hx] at hstep
      exact hstep

theorem cycles_carry_cache (n : Nat) : ∀ s0 : Machine, s0.cpu.p < 256 →
    (Cache.cycles n s0).state.cpu.p &&& 0x02 = s0.cpu.p &&& 0x02 ∧
    (Cache.cycles n s0).state.cpu.p < 256 := by
  induction n with
  | zero => intro s0 hp; exact ⟨rfl, hp⟩
  | succ n ih =>
    intro s0 hp
    have hstep := exec_carry_step s0 hp _ (Or.inr rfl)
    simp only [Cache.cycles]
    cases hx : Cache.execute_instruction s0 with
    | ok u s1 =>
      rw [hx] at hstep
      simp only [Result.state] at hstep
      have := ih s1 hstep.2
      exact ⟨this.1.trans hstep.1, this.2⟩
    | exit f s1 =>
      rw [hx] at hstep
      exact hstep

theorem carry_clear_branches (t : Machine) (hclear : t.cpu.p &&& 0x02 = 0) :
    (t.memory t.cpu.pc = 0x90 →
      branchTaken 0x90 t.cpu.p = true ∧
      ∀ r, (r = Main.execute_instruction t ∨ r = Cache.execute_instruction t) →
        r.fault = none ∧
        r.state.cpu.pc = (t.cpu.pc + 2 + t.memory ((t.cpu.pc + 1) % 65536)) % 65536) ∧
    (t.memory t.cpu.pc = 0xB0 →
      branchTaken 0xB0 t.cpu.p = false ∧
      ∀ r, (r = Main.execute_instruction t ∨ r = Cache.execute_instruction t) →
        r.fault = none ∧ r.state.cpu.pc = (t.cpu.pc + 2) % 65536) := by
  refine ⟨fun hop => ?_, fun hop => ?_⟩
  · have ht : branchTaken 0x90 t.cpu.p = true := by simp [branchTaken, hclear]
    refine ⟨ht, fun r hr => ?_⟩
    have hr' := both_of_main t (by rw [hop]; decide) r hr
    rw [branch_step_main t 0x90 hop (by decide)] at hr'
    subst hr'
    simp [Result.fault, Result.state, Machine.setPc, ht, u16]
  · have ht : branchTaken 0xB0 t.cpu.p = false := by simp [branchTaken, hclear]
    refine ⟨ht, fun r hr => ?_⟩
    have hr' := both_of_main t (by rw [hop]; decide) r hr
    rw [branch_step_main t 0xB0 hop (by decide)] at hr'
    subst hr'
    simp [Result.fault, Result.state, Machine.setPc, ht, u16]

/-- C19: the Carry flag is never computed.  Every dispatch cycle (either
version, any opcode, any state whose status register is a byte) leaves bit 1
of the status register as it was.  Hence in every state reached from a state
with a zero status register (the reset state, whatever program is loaded) by
any number of dispatch cycles the Carry flag is clear, the test of opcode
`0x90` holds and the cycle moves the program counter to `(c + 2 + b) mod
65536`, and the test of opcode `0xB0` fails and the cycle moves it to
`(c + 2) mod 65536`. -/
theorem carry_never_computed :
    (∀ s : Machine, s.cpu.p < 256 →
      ∀ r, (r = Main.execute_instruction s ∨ r = Cache.execute_instruction s) →
        r.state.cpu.p &&& 0x02 = s.cpu.p &&& 0x02) ∧
    (∀ (s0 : Machine) (n : Nat), s0.cpu.p = 0 →
      ∀ c, (c = Main.cycles n s0 ∨ c = Cache.cycles n s0) →
        c.state.cpu.p &&& 0x02 = 0 ∧
        (c.state.memory c.state.cpu.pc = 0x90 →
          branchTaken 0x90 c.state.cpu.p = true ∧
          ∀ r, (r = Main.execute_instruction c.state ∨ r = Cache.execute_instruction c.state) →
            r.fault = none ∧
            r.state.cpu.pc
              = (c.state.cpu.pc + 2 + c.state.memory ((c.state.cpu.pc + 1) % 65536)) % 65536) ∧
        (c.state.memory c.state.cpu.pc = 0xB0 →
          branchTaken 0xB0 c.state.cpu.p = false ∧
          ∀ r, (r = Main.execute_instruction c.state ∨ r = Cache.execute_instruction c.state) →
            r.fault = none ∧ r.state.cpu.pc = (c.state.cpu.pc + 2) % 65536)) := by
  refine ⟨fun s hp r hr => (exec_carry_step s hp r hr).1, fun s0 n h0 c hc => ?_⟩
  have hclear : c.state.cpu.p &&& 0x02 = 0 := by
    have hp : s0.cpu.p < 256 := by omega
    rcases hc with hc | hc
    · rw [hc, (cycles_carry_main n s0 hp).1, h0]; rfl
    · rw [hc, (cycles_carry_cache n s0 hp).1, h0]; rfl
  exact ⟨hclear, carry_clear_branches c.state hclear⟩

/-- Witness for C19: `CMP #$00` sets the Zero flag and leaves Carry clear, so
the following `BCC $05` at `0x0102` is taken. -/
theorem carry_never_computed_witness :
    (boot 0x100 0x100 [0xC9, 0x00, 0x90, 0x05] []).cpu.p = 0 ∧
    (Main.cycles 1 (boot 0x100 0x100 [0xC9, 0x00, 0x90, 0x05] [])).state.cpu.p = 1 ∧
    (Main.cycles 1 (boot 0x100 0x100 [0xC9, 0x00, 0x90, 0x05] [])).state.cpu.p &&& 0x02 = 0 ∧
    branchTaken 0x90
      (Main.cycles 1 (boot 0x100 0x100 [0xC9, 0x00, 0x90, 0x05] [])).state.cpu.p = true :=
  ⟨rfl, by decide,
   (carry_never_computed.2 (boot 0x100 0x100 [0xC9, 0x00, 0x90, 0x05] []) 1 rfl _
     (Or.inl rfl)).1,
   ((carry_never_computed.2 (boot 0x100 0x100 [0xC9, 0x00, 0x90, 0x05] []) 1 rfl _
     (Or.inl rfl)).2.1 (by decide)).1⟩

/-! ## What a dispatch cycle leaves alone: the stack-pointer register field -/

theorem jsr_sp_independent_main (s : Machine) (q : Nat) (h : s.memory s.cpu.pc = 0x20) :
    (Main.execute_instruction (s.withSp q)).fault = (Main.execute_instruction s).fault ∧
    (Main.execute_instruction (s.withSp q)).state.withSp 0
      = (Main.execute_instruction s).state.withSp 0 := by
  have h' : (s.withSp q).memory (s.withSp q).cpu.pc = 0x20 := h
  simp only [Main.execute_instruction, fetch_byte, h, h', push, pop, Machine.setPc,
    Machine.withSp]
  split_ifs <;> (try simp only []) <;> (try split_ifs) <;> (try simp only []) <;>
    simp only [Result.state, Result.fault, and_self]

theorem jsr_sp_independent_cache (s : Machine) (q : Nat) (h : s.memory s.cpu.pc = 0x20) :
    (Cache.execute_instruction (s.withSp q)).fault = (Cache.execute_instruction s).fault ∧
    (Cache.execute_instruction (s.withSp q)).state.withSp 0
      = (Cache.execute_instruction s).state.withSp 0 := by
  have h' : (s.withSp q).memory (s.withSp q).cpu.pc = 0x20 := h
  cases hin : s.input <;>
  simp only [Cache.execute_instruction, fetch_byte, h, h', push, pop, Cache.read_char,
    Machine.setPc, Machine.setA, Machine.withSp, hin] <;>
  split_ifs <;> (try simp only []) <;> (try split_ifs) <;> (try simp only []) <;>
    (try split_ifs) <;> (try simp only [hin]) <;>
    simp only [Result.state, Result.fault, and_self]

theorem sp_independent_main (s : Machine) (q : Nat) (hne : s.memory s.cpu.pc ≠ 0xBA) :
    (Main.execute_instruction (s.withSp q)).fault = (Main.execute_instruction s).fault ∧
    (Main.execute_instruction (s.withSp q)).state.withSp 0
      = (Main.execute_instruction s).state.withSp 0 := by
  by_cases hk : s.memory s.cpu.pc ∈ supportedOpcodes
  · simp only [supportedOpcodes, List.mem_cons, List.mem_singleton, List.mem_nil_iff,
      or_false] at hk
    rcases hk with h | h | h | h | h | h | h | h | h | h | h | h | h | h | h | h | h | h | h
      | h | h | h | h | h | h | h | h | h | h <;>
    first
    | exact absurd h hne
    | exact jsr_sp_independent_main s q h
    | (have h' : (s.withSp q).memory (s.withSp q).cpu.pc = _ := h
       simp only [Main.execute_instruction, fetch_byte, h, h', read_byte, write_byte,
         get_address, pop, Machine.setPc, Machine.setA, Machine.setX, Machine.setY,
         Machine.setSp, Machine.setP, Machine.withSp]
       first
       | (simp only [Result.state, Result.fault, and_self]; done)
       | (split_ifs <;> simp only [Result.state, Result.fault, and_self]))
  · have hk' : (s.withSp q).memory (s.withSp q).cpu.pc ∉ supportedOpcodes := hk
    rw [unknown_opcode_main s hk, unknown_opcode_main _ hk']
    simp [Result.state, Result.fault, Machine.setPc, Machine.withSp]

theorem sp_independent_cache (s : Machine) (q : Nat) (hne : s.memory s.cpu.pc ≠ 0xBA) :
    (Cache.execute_instruction (s.withSp q)).fault = (Cache.execute_instruction s).fault ∧
    (Cache.execute_instruction (s.withSp q)).state.withSp 0
      = (Cache.execute_instruction s).state.withSp 0 := by
  by_cases h : s.memory s.cpu.pc = 0x20
  · exact jsr_sp_independent_cache s q h
  · have h' : (s.withSp q).memory (s.withSp q).cpu.pc ≠ 0x20 := h
    rw [cache_eq_main s h, cache_eq_main _ h']
    exact sp_independent_main s q hne

theorem txs_tsx_step_main (s : Machine) :
    (s.memory s.cpu.pc = 0x9A →
      Main.execute_instruction s = .ok () ((s.setPc (s.cpu.pc + 1)).setSp s.cpu.x)) ∧
    (s.memory s.cpu.pc = 0xBA →
      Main.execute_instruction s = .ok () ((s.setPc (s.cpu.pc + 1)).setX s.cpu.sp)) := by
  constructor <;> intro h <;>
  simp only [Main.execute_instruction, fetch_byte, h] <;> rfl

theorem push_pop_withSp (s : Machine) (q v : Nat) :
    (push (s.withSp q) v).fault = (push s v).fault ∧
    (push (s.withSp q) v).state = (push s v).state.withSp q ∧
    (pop (s.withSp q)).fault = (pop s).fault ∧
    (pop (s.withSp q)).value = (pop s).value ∧
    (pop (s.withSp q)).state = (pop s).state.withSp q := by
  simp only [push, pop, Machine.withSp]
  split_ifs <;> simp [Result.fault, Result.state, Result.value]

/-- C20: the stack-pointer register field is independent of the call stack.
In every well-formed state and for either version of the dispatcher: every
opcode but `0x9A` leaves the field as it was and `0x9A` sets it to X; for
every opcode but `0xBA` the outcome of the cycle (fatal condition and all of
the state except the field itself) is the same for every value of the field,
and `0xBA` sets X to it; `0x9A` and `0xBA` succeed and change neither the call
stack pointer nor any slot; `push` and `pop` behave identically for every
value of the field. -/
theorem sp_field_independent (s : Machine) (hs : s.WF) :
    ∀ exec, (exec = Main.execute_instruction ∨ exec = Cache.execute_instruction) →
      (s.memory s.cpu.pc ≠ 0x9A → (exec s).state.cpu.sp = s.cpu.sp) ∧
      (s.memory s.cpu.pc = 0x9A → (exec s).state.cpu.sp = s.cpu.x) ∧
      (s.memory s.cpu.pc ≠ 0xBA → ∀ q,
        (exec (s.withSp q)).fault = (exec s).fault ∧
        (exec (s.withSp q)).state.withSp 0 = (exec s).state.withSp 0) ∧
      (s.memory s.cpu.pc = 0xBA → (exec s).state.cpu.x = s.cpu.sp) ∧
      (s.memory s.cpu.pc = 0x9A ∨ s.memory s.cpu.pc = 0xBA →
        (exec s).fault = none ∧ (exec s).state.stack_pointer = s.stack_pointer ∧
        (exec s).state.stack = s.stack) ∧
      (∀ q v,
        (push (s.withSp q) v).fault = (push s v).fault ∧
        (push (s.withSp q) v).state = (push s v).state.withSp q ∧
        (pop (s.withSp q)).fault = (pop s).fault ∧
        (pop (s.withSp q)).value = (pop s).value ∧
        (pop (s.withSp q)).state = (pop s).state.withSp q) := by
  have hx : s.cpu.x % 256 = s.cpu.x := Nat.mod_eq_of_lt hs.x_lt
  have hq : s.cpu.sp % 256 = s.cpu.sp := Nat.mod_eq_of_lt hs.sp_lt
  have hmain :
      (s.memory s.cpu.pc = 0x9A → (Main.execute_instruction s).state.cpu.sp = s.cpu.x) ∧
      (s.memory s.cpu.pc = 0xBA → (Main.execute_instruction s).state.cpu.x = s.cpu.sp) ∧
      (s.memory s.cpu.pc = 0x9A ∨ s.memory s.cpu.pc = 0xBA →
        (Main.execute_instruction s).fault = none ∧
        (Main.execute_instruction s).state.stack_pointer = s.stack_pointer ∧
        (Main.execute_instruction s).state.stack = s.stack) := by
    refine ⟨fun h => ?_, fun h => ?_, fun h => ?_⟩
    · rw [(txs_tsx_step_main s).1 h]
      simp [Result.state, Machine.setSp, Machine.setPc, u8, hx]
    · rw [(txs_tsx_step_main s).2 h]
      simp [Result.state, Machine.setX, Machine.setPc, u8, hq]
    · rcases h with h | h
      · rw [(txs_tsx_step_main s).1 h]
        simp [Result.state, Result.fault, Machine.setSp, Machine.setPc]
      · rw [(txs_tsx_step_main s).2 h]
        simp [Result.state, Result.fault, Machine.setX, Machine.setPc]
  intro exec hexec
  rcases hexec with rfl | rfl
  · exact ⟨(exec_frame_main s).2, hmain.1, fun h q => sp_independent_main s q h, hmain.2.1,
      hmain.2.2, push_pop_withSp s⟩
  · have hc : s.memory s.cpu.pc = 0x9A ∨ s.memory s.cpu.pc = 0xBA →
        Cache.execute_instruction s = Main.execute_instruction s := by
      intro h
      exact cache_eq_main s (by rcases h with h | h <;> rw [h] <;> decide)
    refine ⟨(exec_frame_cache s).2, fun h => ?_, fun h q => sp_independent_cache s q h,
      fun h => ?_, fun h => ?_, push_pop_withSp s⟩
    · rw [hc (Or.inl h)]; exact hmain.1 h
    · rw [hc (Or.inr h)]; exact hmain.2.1 h
    · rw [hc h]; exact hmain.2.2 h

/-- Witness for C20: `TXS` with `X = 0x42` sets the field to `0x42` and leaves
the call stack pointer at 255. -/
theorem sp_field_independent_witness :
    ((boot 0x100 0x100 [0x9A] []).setX 0x42).WF ∧
    (Main.execute_instruction ((boot 0x100 0x100 [0x9A] []).setX 0x42)).state.cpu.sp = 0x42 ∧
    (Main.execute_instruction ((boot 0x100 0x100 [0x9A] []).setX 0x42)).state.stack_pointer
      = 255 :=
  have hwf : ((boot 0x100 0x100 [0x9A] []).setX 0x42).WF :=
    { boot_WF 0x100 0x100 [0x9A] [] (by decide) (by decide) with x_lt := by decide }
  have h := sp_field_independent _ hwf Main.execute_instruction (Or.inl rfl)
  ⟨hwf, h.2.1 (by decide), (h.2.2.2.2.1 (Or.inl (by decide))).2.1⟩

/-! ## Branch polarity after a comparison -/

/-- C21 fails: `CMP #$07` with accumulator 7 (equal) followed by `0xD0`
("BNE") with operand 5 at `0x0102` ends at `0x0109`, so the branch is taken,
and with accumulator 7 against `#$08` (not equal) it ends at `0x0104`, not
taken; `0xF0` ("BEQ") behaves the other way round: not taken when equal, taken
when not equal. -/
theorem bne_beq_inverted_after_cmp :
    (Main.cycles 2 (cmpBranchState 0x07 0x07 0xD0)).state.cpu.pc = 0x109 ∧
    (Main.cycles 2 (cmpBranchState 0x07 0x08 0xD0)).state.cpu.pc = 0x104 ∧
    (Main.cycles 2 (cmpBranchState 0x07 0x07 0xF0)).state.cpu.pc = 0x104 ∧
    (Main.cycles 2 (cmpBranchState 0x07 0x08 0xF0)).state.cpu.pc = 0x109 ∧
    (Cache.cycles 2 (cmpBranchState 0x07 0x07 0xD0)).state.cpu.pc = 0x109 ∧
    (Cache.cycles 2 (cmpBranchState 0x07 0x07 0xF0)).state.cpu.pc = 0x104 := by
  decide

/-- The test of `0xD0` holds exactly when bit 0 of the status register is set
and the test of `0xF0` exactly when it is clear. -/
theorem branchTaken_zero (p : Nat) :
    (branchTaken 0xD0 p = true ↔ p &&& 0x01 ≠ 0) ∧
    (branchTaken 0xF0 p = true ↔ p &&& 0x01 = 0) := by
  simp [branchTaken]

/-- In every well-formed state, after `0xC9` with operand `v` the test of
`0xD0` holds iff `a = v` and the test of `0xF0` holds iff `a ≠ v`. -/
theorem branch_after_cmp (s : Machine) (hs : s.WF) (hop : s.memory s.cpu.pc = 0xC9) :
    ∀ r, (r = Main.execute_instruction s ∨ r = Cache.execute_instruction s) →
      r.fault = none ∧
      (branchTaken 0xD0 r.state.cpu.p = true ↔ s.cpu.a = s.memory ((s.cpu.pc + 1) % 65536)) ∧
      (branchTaken 0xF0 r.state.cpu.p = true ↔ s.cpu.a ≠ s.memory ((s.cpu.pc + 1) % 65536)) := by
  intro r hr
  have hr' := both_of_main s (by rw [hop]; decide) r hr
  rw [cmp_step_main s hop] at hr'
  subst hr'
  obtain ⟨b1, -, b3, -, -, -⟩ := status_bits s.cpu.p hs.p_lt
  rw [(branchTaken_zero _).1, (branchTaken_zero _).2]
  simp only [Result.state, Result.fault, u8, u16, true_and]
  by_cases heq : s.cpu.a = s.memory ((s.cpu.pc + 1) % 65536)
  · simp [b3, heq]
  · simp [b1, heq]

/-- Witness for `branch_after_cmp`: `CMP #$07` with accumulator 7. -/
theorem branch_after_cmp_witness :
    (cmpBranchState 0x07 0x07 0xD0).WF ∧
    branchTaken 0xD0 (Main.execute_instruction (cmpBranchState 0x07 0x07 0xD0)).state.cpu.p
      = true :=
  have hwf : (cmpBranchState 0x07 0x07 0xD0).WF :=
    { boot_WF 0x100 0x100 [0xC9, 0x07, 0xD0, 0x05] [] (by decide) (by decide) with
      a_lt := by decide }
  ⟨hwf, (branch_after_cmp _ hwf (by decide) _ (Or.inl rfl)).2.1.2 (by decide)⟩

/-! ## Opcode `0xA1` -/

/-- C22 fails: with `A1 10` at `0x0100`, `X = 2`, the pointer `0x0300` at
`0x10..0x11` and the pointer `0x0400` at `0x12..0x13`, indexed-indirect
addressing would load the byte at `0x0400` (`0xAA`); the dispatch cycle loads
`0xBB`, the byte at `0x0300 + 2`: X is added after the pointer is read, not
to the zero-page operand. -/
theorem lda_indexed_indirect_at_0x100 :
    indexedIndirectState.memory indexedIndirectState.cpu.pc = 0xA1 ∧
    indexedIndirectState.memory 0x101 = 0x10 ∧ indexedIndirectState.cpu.x = 2 ∧
    indexedIndirectState.memory ((0x10 + 2) % 256)
      + 256 * indexedIndirectState.memory ((0x10 + 2 + 1) % 256) = 0x0400 ∧
    indexedIndirectState.memory 0x0400 = 0xAA ∧
    (Main.execute_instruction indexedIndirectState).fault = none ∧
    (Main.execute_instruction indexedIndirectState).state.cpu.a = 0xBB ∧
    (Cache.execute_instruction indexedIndirectState).state.cpu.a = 0xBB ∧
    indexedIndirectState.memory 0x10 + 256 * indexedIndirectState.memory 0x11 + 2 = 0x0302 := by
  decide

theorem lda_ind_step_main (s : Machine) (h : s.memory s.cpu.pc = 0xA1) :
    Main.execute_instruction s = .ok ()
      { s with cpu := { s.cpu with
          a := u8 (s.memory (u16 (((s.memory (u8 (s.memory (u16 (s.cpu.pc + 1))))
                 ||| (s.memory (u8 (s.memory (u16 (s.cpu.pc + 1))) + 1) <<< 8))
                 + s.cpu.x) &&& 0xFFFF)))
          pc := u16 (s.cpu.pc + 2) } } := by
  simp only [Main.execute_instruction, fetch_byte, h, Machine.setPc, Machine.setA,
    u16_succ_succ]

/-- In every well-formed state opcode `0xA1` with operand byte `z` loads the
accumulator from `(memory[z] + 256*memory[z+1] + X) mod 65536`, with `z + 1`
not wrapped into the zero page. -/
theorem lda_indexed_indirect_value (s : Machine) (hs : s.WF)
    (hop : s.memory s.cpu.pc = 0xA1) :
    ∀ r, (r = Main.execute_instruction s ∨ r = Cache.execute_instruction s) →
      r.fault = none ∧
      r.state.cpu.a = s.memory
        ((s.memory (s.memory ((s.cpu.pc + 1) % 65536))
          + 256 * s.memory (s.memory ((s.cpu.pc + 1) % 65536) + 1) + s.cpu.x) % 65536) := by
  intro r hr
  have hr' := both_of_main s (by rw [hop]; decide) r hr
  rw [lda_ind_step_main s hop] at hr'
  subst hr'
  have hz := hs.memory_lt ((s.cpu.pc + 1) % 65536)
  have hlo := hs.memory_lt (s.memory ((s.cpu.pc + 1) % 65536))
  simp only [Result.fault, Result.state, u8, u16, and_ffff, Nat.mod_eq_of_lt hz,
    lor_shiftLeft_eight _ _ hlo, Nat.mod_mod, Nat.mod_eq_of_lt (hs.memory_lt _), true_and]

/-- Witness for `lda_indexed_indirect_value`: `A1 10` in the reset state. -/
theorem lda_indexed_indirect_value_witness :
    (boot 0x100 0x100 [0xA1, 0x10] []).WF ∧
    (Main.execute_instruction (boot 0x100 0x100 [0xA1, 0x10] [])).fault = none :=
  have hwf : (boot 0x100 0x100 [0xA1, 0x10] []).WF :=
    boot_WF _ _ _ _ (by decide) (by decide)
  ⟨hwf, (lda_indexed_indirect_value _ hwf (by decide) _ (Or.inl rfl)).1⟩

/-! ## The fatal conditions a dispatch cycle can end with -/

theorem jsr_fault_main (s : Machine) (h : s.memory s.cpu.pc = 0x20) :
    (Main.execute_instruction s).fault = none ∨
    (Main.execute_instruction s).fault = some (.UnknownOpcode (s.memory s.cpu.pc)) ∨
    (Main.execute_instruction s).fault = some .StackOverflow ∨
    (Main.execute_instruction s).fault = some .StackUnderflow := by
  simp only [Main.execute_instruction, fetch_byte, h, push, pop, Machine.setPc]
  split_ifs <;> (try simp only []) <;> (try split_ifs) <;> (try simp only []) <;>
    simp [Result.fault]

theorem jsr_fault_cache (s : Machine) (h : s.memory s.cpu.pc = 0x20) :
    (Cache.execute_instruction s).fault = none ∨
    (Cache.execute_instruction s).fault = some (.UnknownOpcode (s.memory s.cpu.pc)) ∨
    (Cache.execute_instruction s).fault = some .StackOverflow ∨
    (Cache.execute_instruction s).fault = some .StackUnderflow := by
  simp only [Cache.execute_instruction, fetch_byte, h, push, pop, Cache.read_char, Machine.setPc,
    Machine.setA]
  split_ifs <;> (try simp only []) <;> (try split_ifs) <;> (try simp only []) <;>
    (try split_ifs) <;> (try simp only []) <;> (try split) <;>
    simp [Result.fault]

theorem exec_fault_main (s : Machine) :
    (Main.execute_instruction s).fault = none ∨
    (Main.execute_instruction s).fault = some (.UnknownOpcode (s.memory s.cpu.pc)) ∨
    (Main.execute_instruction s).fault = some .StackOverflow ∨
    (Main.execute_instruction s).fault = some .StackUnderflow := by
  by_cases hk : s.memory s.cpu.pc ∈ supportedOpcodes
  · simp only [supportedOpcodes, List.mem_cons, List.mem_singleton, List.mem_nil_iff,
      or_false] at hk
    rcases hk with h | h | h | h | h | h | h | h | h | h | h | h | h | h | h | h | h | h | h
      | h | h | h | h | h | h | h | h | h | h <;>
    first
    | exact jsr_fault_main s h
    | (simp [Main.execute_instruction, fetch_byte, h, read_byte, write_byte, get_address,
        Result.fault, Machine.setPc, Machine.setA, Machine.setX, Machine.setY, Machine.setSp,
        Machine.setP]; done)
    | (simp only [Main.execute_instruction, fetch_byte, h, read_byte, write_byte, get_address,
        pop, Machine.setPc, Machine.setA, Machine.setX, Machine.setY, Machine.setSp,
        Machine.setP]
       split_ifs <;> simp [Result.fault])
  · rw [unknown_opcode_main s hk]
    simp [Result.fault]

theorem exec_fault_cache (s : Machine) :
    (Cache.execute_instruction s).fault = none ∨
    (Cache.execute_instruction s).fault = some (.UnknownOpcode (s.memory s.cpu.pc)) ∨
    (Cache.execute_instruction s).fault = some .StackOverflow ∨
    (Cache.execute_instruction s).fault = some .StackUnderflow := by
  by_cases h : s.memory s.cpu.pc = 0x20
  · exact jsr_fault_cache s h
  · rw [cache_eq_main s h]
    exact exec_fault_main s

/-- C23: for every state, one dispatch cycle (either version) either
succeeds or exits with `UnknownOpcode` naming the fetched byte,
`StackOverflow` or `StackUnderflow`; it never exits with
`InvalidAddressingMode`, and the two selectors the dispatcher passes to the
resolver, 1 and 2, never make `get_address` exit. -/
theorem invalid_addressing_mode_unreachable (s : Machine) :
    ((Main.execute_instruction s).fault = none ∨
     (Main.execute_instruction s).fault = some (.UnknownOpcode (s.memory s.cpu.pc)) ∨
     (Main.execute_instruction s).fault = some .StackOverflow ∨
     (Main.execute_instruction s).fault = some .StackUnderflow) ∧
    ((Cache.execute_instruction s).fault = none ∨
     (Cache.execute_instruction s).fault = some (.UnknownOpcode (s.memory s.cpu.pc)) ∨
     (Cache.execute_instruction s).fault = some .StackOverflow ∨
     (Cache.execute_instruction s).fault = some .StackUnderflow) ∧
    (∀ m, (Main.execute_instruction s).fault ≠ some (.InvalidAddressingMode m)) ∧
    (∀ m, (Cache.execute_instruction s).fault ≠ some (.InvalidAddressingMode m)) ∧
    (get_address s 1).fault = none ∧ (get_address s 2).fault = none := by
  have hm := exec_fault_main s
  have hc := exec_fault_cache s
  refine ⟨hm, hc, fun m h => ?_, fun m h => ?_, rfl, rfl⟩
  · rcases hm with h' | h' | h' | h' <;> rw [h'] at h <;> simp at h
  · rcases hc with h' | h' | h' | h' <;> rw [h'] at h <;> simp at h

/-! ## Opcodes `0xAE` and `0xAC`, and what reaches X -/

theorem ldy_abs_step_main (s : Machine)
    (h : s.memory s.cpu.pc = 0xAE ∨ s.memory s.cpu.pc = 0xAC) :
    Main.execute_instruction s = .ok ()
      { s with cpu := { s.cpu with
          y := u8 (s.memory (operand16 s))
          pc := u16 (s.cpu.pc + 3) } } := by
  have e3 : u16 (u16 (s.cpu.pc + 2) + 1) = u16 (s.cpu.pc + 3) := by
    simp only [u16]; omega
  rcases h with h | h <;>
  simp only [Main.execute_instruction, fetch_byte, h, read_byte, get_address, Machine.setPc,
    Machine.setY, operand16, u16_succ_succ, e3]

theorem jsr_x_frame_main (s : Machine) (h : s.memory s.cpu.pc = 0x20) :
    (Main.execute_instruction s).state.cpu.x = s.cpu.x := by
  simp only [Main.execute_instruction, fetch_byte, h, push, pop, Machine.setPc]
  split_ifs <;> (try simp only []) <;> (try split_ifs) <;> (try simp only []) <;>
    simp only [Result.state]

theorem jsr_x_frame_cache (s : Machine) (h : s.memory s.cpu.pc = 0x20) :
    (Cache.execute_instruction s).state.cpu.x = s.cpu.x := by
  simp only [Cache.execute_instruction, fetch_byte, h, push, pop, Cache.read_char, Machine.setPc,
    Machine.setA]
  split_ifs <;> (try simp only []) <;> (try split_ifs) <;> (try simp only []) <;>
    (try split_ifs) <;> (try simp only []) <;> (try split) <;>
    simp only [Result.state]

theorem exec_x_cases_main (s : Machine) :
    (Main.execute_instruction s).state.cpu.x = s.cpu.x ∨
    (Main.execute_instruction s).state.cpu.x = u8 ((s.cpu.x + 1) &&& 0xFF) ∨
    (Main.execute_instruction s).state.cpu.x = u8 s.cpu.sp ∨
    (Main.execute_instruction s).state.cpu.x = u8 s.cpu.a ∨
    (s.memory s.cpu.pc = 0xA2 ∧
      (Main.execute_instruction s).state.cpu.x = u8 (s.memory (u16 (s.cpu.pc + 1)))) := by
  by_cases hk : s.memory s.cpu.pc ∈ supportedOpcodes
  · simp only [supportedOpcodes, List.mem_cons, List.mem_singleton, List.mem_nil_iff,
      or_false] at hk
    rcases hk with h | h | h | h | h | h | h | h | h | h | h | h | h | h | h | h | h | h | h
      | h | h | h | h | h | h | h | h | h | h <;>
    first
    | exact Or.inl (jsr_x_frame_main s h)
    | (simp [Main.execute_instruction, fetch_byte, h, read_byte, write_byte, get_address,
        Result.state, Machine.setPc, Machine.setA, Machine.setX, Machine.setY, Machine.setSp,
        Machine.setP]; done)
    | (simp only [Main.execute_instruction, fetch_byte, h, read_byte, write_byte, get_address,
        pop, Machine.setPc, Machine.setA, Machine.setX, Machine.setY, Machine.setSp,
        Machine.setP]
       split_ifs <;> simp [Result.state])
  · rw [unknown_opcode_main s hk]
    simp [Result.state, Machine.setPc]

theorem exec_x_cases_cache (s : Machine) :
    (Cache.execute_instruction s).state.cpu.x = s.cpu.x ∨
    (Cache.execute_instruction s).state.cpu.x = u8 ((s.cpu.x + 1) &&& 0xFF) ∨
    (Cache.execute_instruction s).state.cpu.x = u8 s.cpu.sp ∨
    (Cache.execute_instruction s).state.cpu.x = u8 s.cpu.a ∨
    (s.memory s.cpu.pc = 0xA2 ∧
      (Cache.execute_instruction s).state.cpu.x = u8 (s.memory (u16 (s.cpu.pc + 1)))) := by
  by_cases h : s.memory s.cpu.pc = 0x20
  · exact Or.inl (jsr_x_frame_cache s h)
  · rw [cache_eq_main s h]
    exact exec_x_cases_main s

/-- C24: opcodes `0xAE` and `0xAC` are behaviourally identical.  For every
well-formed state with `0xAE` at the program counter whose operand address is
not the program counter itself, the state that differs only in holding `0xAC`
there gives, after one dispatch cycle (either version), the same registers,
flags and program counter and the same call stack: Y is the byte at the
absolute little-endian operand address and X is unchanged.  No opcode loads X
through an operand address: after any cycle X is the old X, the old X plus
one (mod 256), the stack-pointer field or the accumulator, or, for `0xA2`
only, the immediate operand byte. -/
theorem ldy_absolute_twins :
    (∀ s : Machine, s.WF → s.memory s.cpu.pc = 0xAE →
      s.memory ((s.cpu.pc + 1) % 65536) + 256 * s.memory ((s.cpu.pc + 2) % 65536) ≠ s.cpu.pc →
      ∀ exec, (exec = Main.execute_instruction ∨ exec = Cache.execute_instruction) →
        (exec s).fault = none ∧
        (exec { s with memory := store s.memory s.cpu.pc 0xAC }).fault = none ∧
        (exec { s with memory := store s.memory s.cpu.pc 0xAC }).state.cpu = (exec s).state.cpu ∧
        (exec { s with memory := store s.memory s.cpu.pc 0xAC }).state.stack
          = (exec s).state.stack ∧
        (exec { s with memory := store s.memory s.cpu.pc 0xAC }).state.stack_pointer
          = (exec s).state.stack_pointer ∧
        (exec s).state.cpu.y
          = s.memory (s.memory ((s.cpu.pc + 1) % 65536)
              + 256 * s.memory ((s.cpu.pc + 2) % 65536)) ∧
        (exec s).state.cpu.x = s.cpu.x) ∧
    (∀ s : Machine, s.WF →
      ∀ exec, (exec = Main.execute_instruction ∨ exec = Cache.execute_instruction) →
        (exec s).state.cpu.x = s.cpu.x ∨
        (exec s).state.cpu.x = (s.cpu.x + 1) % 256 ∨
        (exec s).state.cpu.x = s.cpu.sp ∨
        (exec s).state.cpu.x = s.cpu.a ∨
        (s.memory s.cpu.pc = 0xA2 ∧
          (exec s).state.cpu.x = s.memory ((s.cpu.pc + 1) % 65536))) := by
  constructor
  · intro s hs hop ht exec hexec
    have hpc := hs.pc_lt
    rw [← operand16_eq s hs] at ht ⊢
    have hy : s.memory (operand16 s) % 256 = s.memory (operand16 s) :=
      Nat.mod_eq_of_lt (hs.memory_lt _)
    have hop' : ({ s with memory := store s.memory s.cpu.pc 0xAC } : Machine).memory
        ({ s with memory := store s.memory s.cpu.pc 0xAC } : Machine).cpu.pc = 0xAC := by
      simp [store]
    have h16 : operand16 ({ s with memory := store s.memory s.cpu.pc 0xAC } : Machine)
        = operand16 s := by
      have e1 : u16 (s.cpu.pc + 1) ≠ s.cpu.pc := by simp only [u16]; omega
      have e2 : u16 (s.cpu.pc + 2) ≠ s.cpu.pc := by simp only [u16]; omega
      simp only [operand16, store, if_neg e1, if_neg e2]
    have hm := ldy_abs_step_main s (Or.inl hop)
    have hm' := ldy_abs_step_main _ (Or.inr hop')
    rw [h16] at hm'
    have hval : ({ s with memory := store s.memory s.cpu.pc 0xAC } : Machine).memory (operand16 s)
        = s.memory (operand16 s) := by
      simp only [store, if_neg ht]
    rw [hval] at hm'
    have hc := cache_eq_main s (by rw [hop]; decide)
    have hc' := cache_eq_main ({ s with memory := store s.memory s.cpu.pc 0xAC } : Machine)
      (by rw [hop']; decide)
    rcases hexec with rfl | rfl
    · rw [hm, hm']
      simp [Result.fault, Result.state, u8, hy]
    · rw [hc, hc', hm, hm']
      simp [Result.fault, Result.state, u8, hy]
  · intro s hs exec hexec
    have hx : ((s.cpu.x + 1) &&& 0xFF) % 256 = (s.cpu.x + 1) % 256 := by
      rw [and_ff]; omega
    have hsp : s.cpu.sp % 256 = s.cpu.sp := Nat.mod_eq_of_lt hs.sp_lt
    have ha : s.cpu.a % 256 = s.cpu.a := Nat.mod_eq_of_lt hs.a_lt
    have hv : s.memory ((s.cpu.pc + 1) % 65536) % 256 = s.memory ((s.cpu.pc + 1) % 65536) :=
      Nat.mod_eq_of_lt (hs.memory_lt _)
    have key : ∀ r : Result Unit,
        (r.state.cpu.x = s.cpu.x ∨ r.state.cpu.x = u8 ((s.cpu.x + 1) &&& 0xFF) ∨
          r.state.cpu.x = u8 s.cpu.sp ∨ r.state.cpu.x = u8 s.cpu.a ∨
          (s.memory s.cpu.pc = 0xA2 ∧ r.state.cpu.x = u8 (s.memory (u16 (s.cpu.pc + 1))))) →
        (r.state.cpu.x = s.cpu.x ∨ r.state.cpu.x = (s.cpu.x + 1) % 256 ∨
          r.state.cpu.x = s.cpu.sp ∨ r.state.cpu.x = s.cpu.a ∨
          (s.memory s.cpu.pc = 0xA2 ∧ r.state.cpu.x = s.memory ((s.cpu.pc + 1) % 65536))) := by
      intro r h
      simp only [u8, u16, hx, hsp, ha, hv] at h
      exact h
    rcases hexec with rfl | rfl
    · exact key _ (exec_x_cases_main s)
    · exact key _ (exec_x_cases_cache s)

/-- Witness for C24: `AE 03 01` at `0x0100` with `0x77` at `0x0103` loads
`Y = 0x77`, and so does `AC 03 01`. -/
theorem ldy_absolute_twins_witness :
    (boot 0x100 0x100 [0xAE, 0x03, 0x01, 0x77] []).WF ∧
    (Main.execute_instruction (boot 0x100 0x100 [0xAE, 0x03, 0x01, 0x77] [])).state.cpu.y
      = 0x77 ∧
    (Main.execute_instruction (boot 0x100 0x100 [0xAC, 0x03, 0x01, 0x77] [])).state.cpu.y
      = 0x77 ∧
    (Main.execute_instruction (boot 0x100 0x100 [0xAE, 0x03, 0x01, 0x77] [])).state.cpu.x = 0 :=
  have hwf : (boot 0x100 0x100 [0xAE, 0x03, 0x01, 0x77] []).WF :=
    boot_WF _ _ _ _ (by decide) (by decide)
  have h := ldy_absolute_twins.1 _ hwf (by decide) (by decide) Main.execute_instruction
    (Or.inl rfl)
  ⟨hwf, h.2.2.2.2.2.1, by decide, h.2.2.2.2.2.2⟩
